import Mathlib

/-!
Verification development for the fitness-analysis HTTP relay (`app.py`).

The source is a single Flask handler `analyze_image` plus two trivial
health-check routes.  We shallowly embed, character-for-character, the parts
of the handler the specification talks about:

* input validation of the base64 image payload (`app.py` lines 61-77);
* the prompt builder (lines 82-116, 126-185);
* the response normaliser - `strip`, the two fence `re.sub`s, the two
  bare-word-repair `re.sub`s, the greedy `\x7b.*\x7d` span search, and
  `json.loads` (lines 279-302);
* the bounded retry loop around the upstream request (lines 221-383).

Strings are modelled as `String`/`List Char`; Python regex substitutions are
modelled as total scanners with exactly the semantics of `re.sub` on the
concrete patterns in the source (left-to-right scan, leftmost match,
non-overlapping, continue after the matched span).
-/

namespace Fitness

/-- The backtick character, written numerically. -/
def bt : Char := Char.ofNat 96

/-- The opening-brace character, written numerically. -/
def lbrace : Char := Char.ofNat 123

/-- The closing-brace character, written numerically. -/
def rbrace : Char := Char.ofNat 125

/-- Python's `\s` on ASCII text: space, tab, newline, carriage return,
vertical tab, form feed.  Also the character set of `str.strip()`. -/
def isPySpace (c : Char) : Bool :=
  c = ' ' || c = '\t' || c = '\n' || c = '\r' || c = '\x0b' || c = '\x0c'

/-- First-character class of the repair pattern `[a-zA-Z_]+[a-zA-Z0-9_]*`. -/
def isIdentStart (c : Char) : Bool :=
  ('a' ≤ c && c ≤ 'z') || ('A' ≤ c && c ≤ 'Z') || c = '_'

/-- Character class `[a-zA-Z0-9_]` of the repair pattern. -/
def isIdentChar (c : Char) : Bool :=
  isIdentStart c || ('0' ≤ c && c ≤ '9')

/-- `content.strip()` (line 281): drop Python whitespace from both ends. -/
def pyStripL (l : List Char) : List Char :=
  ((l.dropWhile isPySpace).reverse.dropWhile isPySpace).reverse

/-- The seven characters of the fenced-code opener pattern: three backticks
followed by `json`. -/
def fenceOpen : List Char := [bt, bt, bt, 'j', 's', 'o', 'n']

/-- `re.sub(r'```json\s*', '', s)` (line 284): delete every occurrence of
three backticks + `json` + greedy whitespace, scanning left to right and
continuing after each deleted span. -/
def stripJsonOpeners : List Char → List Char
  | [] => []
  | c :: rest =>
    if fenceOpen.isPrefixOf (c :: rest) then
      stripJsonOpeners ((rest.drop 6).dropWhile isPySpace)
    else
      c :: stripJsonOpeners rest
termination_by l => l.length
decreasing_by
  · simp only [List.length_cons]
    have h1 : ((rest.drop 6).dropWhile isPySpace).length ≤ (rest.drop 6).length :=
      (List.dropWhile_suffix _).length_le
    have h2 : (rest.drop 6).length ≤ rest.length := by
      simp [List.length_drop]
    omega
  · simp [List.length_cons]

/-- `re.sub(r'```\s*$', '', s)` (line 285): delete, at the leftmost position
where this is possible, a run of three backticks followed by whitespace
reaching the end of the string (`$` can only succeed there, since the
pattern's `\s*` may absorb a final newline). -/
def stripTrailingFence : List Char → List Char
  | [] => []
  | c :: rest =>
    if c = bt && rest.take 2 = [bt, bt] && (rest.drop 2).all isPySpace then
      []
    else
      c :: stripTrailingFence rest

/-- One attempted match of the repair regex `:\s*([a-zA-Z_]+[a-zA-Z0-9_]*)\s*X`
(with `X` = `,` or `\x7d`), applied to the text following a `:`.  Backtracking is
vacuous for this pattern because the three character classes are pairwise
disjoint, so the match is: greedy whitespace, then the maximal identifier run
(which must be nonempty and start in `[a-zA-Z_]`), then greedy whitespace,
then the closing character.  Returns the captured word and the remainder past
the closing character. -/
def trySubst (close : Char) (l : List Char) : Option (List Char × List Char) :=
  match ((l.dropWhile isPySpace).takeWhile isIdentChar).head? with
  | none => none
  | some c0 =>
    if isIdentStart c0 then
      match ((l.dropWhile isPySpace).dropWhile isIdentChar).dropWhile isPySpace with
      | c2 :: r4 =>
        if c2 = close then some ((l.dropWhile isPySpace).takeWhile isIdentChar, r4)
        else none
      | [] => none
    else none

theorem trySubst_some_length {close : Char} {l w rem : List Char}
    (h : trySubst close l = some (w, rem)) : rem.length + 2 ≤ l.length := by
  unfold trySubst at h
  have hr1l : (l.dropWhile isPySpace).length ≤ l.length := (List.dropWhile_suffix _).length_le
  cases hhd : ((l.dropWhile isPySpace).takeWhile isIdentChar).head? with
  | none => simp [hhd] at h
  | some c0 =>
    simp only [hhd] at h
    by_cases hst : isIdentStart c0
    · simp only [hst, if_pos] at h
      cases hdw : ((l.dropWhile isPySpace).dropWhile isIdentChar).dropWhile isPySpace with
      | nil => simp [hdw] at h
      | cons c2 r4 =>
        simp only [hdw] at h
        by_cases hc2 : c2 = close
        · simp only [hc2, if_pos] at h
          have hrem : rem = r4 := by cases h; rfl
          have h4 : r4.length + 1 ≤ ((l.dropWhile isPySpace).dropWhile isIdentChar).length := by
            have := (List.dropWhile_suffix (l := (l.dropWhile isPySpace).dropWhile isIdentChar)
              isPySpace).length_le
            rw [hdw] at this
            simpa using this
          have h21 : ((l.dropWhile isPySpace).dropWhile isIdentChar).length + 1 ≤
              (l.dropWhile isPySpace).length := by
            cases hr1c : l.dropWhile isPySpace with
            | nil => rw [hr1c] at hhd; simp at hhd
            | cons a t =>
              have ha : isIdentChar a = true := by
                by_contra hna
                rw [hr1c] at hhd
                simp [List.takeWhile_cons, hna] at hhd
              have hstep : List.dropWhile isIdentChar (a :: t) = List.dropWhile isIdentChar t :=
                List.dropWhile_cons_of_pos ha
              rw [hstep]
              have := (List.dropWhile_suffix (l := t) isIdentChar).length_le
              simp only [List.length_cons]
              omega
          subst hrem
          omega
        · simp [hc2] at h
    · simp [hst] at h

/-- One bare-word-repair substitution pass,
`re.sub(r':\s*([a-zA-Z_]+[a-zA-Z0-9_]*)\s*X', r': "\1"X', s)` for a closing
character `X` (the source applies it first with `X = ,` on line 289, then
with `X = \x7d` on line 290).  The scanner advances one character at a time; a
match can only begin at `:`; on a match the whole matched span is replaced by
colon, one space, the quoted word and the closer, and scanning resumes after
the original matched span. -/
def fixBare (close : Char) : List Char → List Char
  | [] => []
  | c :: rest =>
    if c = ':' then
      match h : trySubst close rest with
      | some (w, rem) =>
        ':' :: ' ' :: '"' :: (w ++ '"' :: close :: fixBare close rem)
      | none => ':' :: fixBare close rest
    else c :: fixBare close rest
termination_by l => l.length
decreasing_by
  · have := trySubst_some_length h
    simp only [List.length_cons]
    omega
  · simp [List.length_cons]
  · simp [List.length_cons]

/-- Fuel-based evaluator for `stripJsonOpeners`; structural recursion on the
fuel makes concrete instances kernel-computable.  Agrees with
`stripJsonOpeners` whenever the fuel covers the input length. -/
def stripJsonOpenersE : Nat → List Char → List Char
  | 0, l => l
  | _, [] => []
  | fuel + 1, c :: rest =>
    if fenceOpen.isPrefixOf (c :: rest) then
      stripJsonOpenersE fuel ((rest.drop 6).dropWhile isPySpace)
    else
      c :: stripJsonOpenersE fuel rest


/-- Fuel-based evaluator for `fixBare`; structural recursion on the fuel
makes concrete instances kernel-computable. -/
def fixBareE (close : Char) : Nat → List Char → List Char
  | 0, l => l
  | _, [] => []
  | fuel + 1, c :: rest =>
    if c = ':' then
      match trySubst close rest with
      | some (w, rem) =>
        ':' :: ' ' :: '"' :: (w ++ '"' :: close :: fixBareE close fuel rem)
      | none => ':' :: fixBareE close fuel rest
    else c :: fixBareE close fuel rest


/-- `re.search(r'\x7b.*\x7d', s, re.DOTALL)` (line 293): with a greedy dot-all
`.*`, the leftmost match runs from the first opening brace to the last
closing brace after it; `none` when no such span exists. -/
def findSpan (l : List Char) : Option (List Char) :=
  let after := l.dropWhile (fun c => !(c = lbrace))
  let upto := (after.reverse.dropWhile (fun c => !(c = rbrace))).reverse
  if upto.isEmpty then none else some upto

/-! ### JSON values and `json.loads`

A small recursive-descent parser mirroring the behaviour of `json.loads`
(strict mode) on the inputs this development evaluates: objects, arrays,
strings with escapes, `true`/`false`/`null`, and numbers kept as lexemes.
Raw control characters inside strings are rejected, as in strict mode;
trailing input after the top-level value is rejected. -/

/-- Parsed JSON values.  Number lexemes are kept verbatim. -/
inductive JVal where
  | jnull : JVal
  | jbool : Bool → JVal
  | jnum : List Char → JVal
  | jstr : List Char → JVal
  | jarr : List JVal → JVal
  | jobj : List (List Char × JVal) → JVal

/-- JSON inter-token whitespace (space, tab, newline, carriage return). -/
def isJsonWs (c : Char) : Bool :=
  c = ' ' || c = '\t' || c = '\n' || c = '\r'

/-- Skip JSON whitespace. -/
def skipWs (l : List Char) : List Char := l.dropWhile isJsonWs

/-- Hexadecimal digit test for `\u` escapes. -/
def isHexDigit (c : Char) : Bool :=
  c.isDigit || ('a' ≤ c && c ≤ 'f') || ('A' ≤ c && c ≤ 'F')

/-- Value of a hexadecimal digit. -/
def hexVal (c : Char) : Nat :=
  if c.isDigit then c.toNat - 48
  else if 'a' ≤ c then c.toNat - 87
  else c.toNat - 55

/-- Parse the body of a JSON string after its opening quote; returns the
decoded characters and the remainder after the closing quote. -/
def parseStringGo : Nat → List Char → Option (List Char × List Char)
  | 0, _ => none
  | _, [] => none
  | fuel + 1, c :: rest =>
    if c = '"' then some ([], rest)
    else if c = '\\' then
      match rest with
      | [] => none
      | e :: rest2 =>
        let esc : Option (Char × List Char) :=
          if e = '"' then some ('"', rest2)
          else if e = '\\' then some ('\\', rest2)
          else if e = '/' then some ('/', rest2)
          else if e = 'b' then some ('\x08', rest2)
          else if e = 'f' then some ('\x0c', rest2)
          else if e = 'n' then some ('\n', rest2)
          else if e = 'r' then some ('\r', rest2)
          else if e = 't' then some ('\t', rest2)
          else if e = 'u' then
            match rest2 with
            | h1 :: h2 :: h3 :: h4 :: rest3 =>
              if isHexDigit h1 && isHexDigit h2 && isHexDigit h3 && isHexDigit h4 then
                some (Char.ofNat (((hexVal h1 * 16 + hexVal h2) * 16 + hexVal h3) * 16 + hexVal h4),
                  rest3)
              else none
            | _ => none
          else none
        match esc with
        | some (ch, r) =>
          match parseStringGo fuel r with
          | some (s, r2) => some (ch :: s, r2)
          | none => none
        | none => none
    else if c.toNat < 32 then none
    else
      match parseStringGo fuel rest with
      | some (s, r2) => some (c :: s, r2)
      | none => none

/-- Parse a JSON number lexeme: optional minus, integer part without leading
zeros, optional fraction, optional exponent.  Returns the lexeme verbatim. -/
def parseNumber (l : List Char) : Option (List Char × List Char) :=
  let negPair : List Char × List Char :=
    match l with
    | c :: r => if c = '-' then ([c], r) else ([], l)
    | [] => ([], l)
  let neg := negPair.1
  let l1 := negPair.2
  let ip := l1.takeWhile Char.isDigit
  let r1 := l1.dropWhile Char.isDigit
  if ip.isEmpty then none
  else if 2 ≤ ip.length && ip.head? = some '0' then none
  else
    let fracPair : List Char × List Char :=
      match r1 with
      | c :: r =>
        if c = '.' then
          let fd := r.takeWhile Char.isDigit
          if fd.isEmpty then ([], r1) else (c :: fd, r.dropWhile Char.isDigit)
        else ([], r1)
      | [] => ([], r1)
    let fr := fracPair.1
    let r2 := fracPair.2
    let expPair : List Char × List Char :=
      match r2 with
      | c :: r =>
        if c = 'e' || c = 'E' then
          match r with
          | s :: r' =>
            if s = '+' || s = '-' then
              let ed := r'.takeWhile Char.isDigit
              if ed.isEmpty then ([], r2) else (c :: s :: ed, r'.dropWhile Char.isDigit)
            else
              let ed := r.takeWhile Char.isDigit
              if ed.isEmpty then ([], r2) else (c :: ed, r.dropWhile Char.isDigit)
          | [] => ([], r2)
        else ([], r2)
      | [] => ([], r2)
    some (neg ++ ip ++ fr ++ expPair.1, expPair.2)

mutual

/-- Parse one JSON value (after skipping leading whitespace). -/
def parseVal : Nat → List Char → Option (JVal × List Char)
  | 0, _ => none
  | fuel + 1, l =>
    match skipWs l with
    | [] => none
    | c :: rest =>
      if c = lbrace then
        match skipWs rest with
        | c2 :: rest2 =>
          if c2 = rbrace then some (.jobj [], rest2)
          else
            match parseMembers fuel (c2 :: rest2) with
            | some (fields, r) =>
              match skipWs r with
              | c3 :: r3 => if c3 = rbrace then some (.jobj fields, r3) else none
              | [] => none
            | none => none
        | [] => none
      else if c = '[' then
        match skipWs rest with
        | c2 :: rest2 =>
          if c2 = ']' then some (.jarr [], rest2)
          else
            match parseElems fuel (c2 :: rest2) with
            | some (elems, r) =>
              match skipWs r with
              | c3 :: r3 => if c3 = ']' then some (.jarr elems, r3) else none
              | [] => none
            | none => none
        | [] => none
      else if c = '"' then
        match parseStringGo (rest.length + 1) rest with
        | some (s, r) => some (.jstr s, r)
        | none => none
      else if c = 't' then
        if ['r', 'u', 'e'].isPrefixOf rest then some (.jbool true, rest.drop 3) else none
      else if c = 'f' then
        if ['a', 'l', 's', 'e'].isPrefixOf rest then some (.jbool false, rest.drop 4) else none
      else if c = 'n' then
        if ['u', 'l', 'l'].isPrefixOf rest then some (.jnull, rest.drop 3) else none
      else
        match parseNumber (c :: rest) with
        | some (lex, r) => some (.jnum lex, r)
        | none => none

/-- Parse one or more `"key": value` members separated by commas. -/
def parseMembers : Nat → List Char → Option (List (List Char × JVal) × List Char)
  | 0, _ => none
  | fuel + 1, l =>
    match skipWs l with
    | c :: rest =>
      if c = '"' then
        match parseStringGo (rest.length + 1) rest with
        | some (key, r) =>
          match skipWs r with
          | c2 :: r2 =>
            if c2 = ':' then
              match parseVal fuel r2 with
              | some (v, r3) =>
                match skipWs r3 with
                | c4 :: r4 =>
                  if c4 = ',' then
                    match parseMembers fuel r4 with
                    | some (fields, r5) => some ((key, v) :: fields, r5)
                    | none => none
                  else some ([(key, v)], r3)
                | [] => some ([(key, v)], r3)
              | none => none
            else none
          | [] => none
        | none => none
      else none
    | [] => none

/-- Parse one or more array elements separated by commas. -/
def parseElems : Nat → List Char → Option (List JVal × List Char)
  | 0, _ => none
  | fuel + 1, l =>
    match parseVal fuel l with
    | some (v, r) =>
      match skipWs r with
      | c :: r2 =>
        if c = ',' then
          match parseElems fuel r2 with
          | some (elems, r3) => some (v :: elems, r3)
          | none => none
        else some ([v], r)
      | [] => some ([v], r)
    | none => none

end

/-- `json.loads` (line 296): parse a single JSON value and reject any
non-whitespace trailing input. -/
def jsonLoads (l : List Char) : Option JVal :=
  match parseVal (2 * l.length + 16) l with
  | some (v, rest) => if (skipWs rest).isEmpty then some v else none
  | none => none

/-! ### Prompt builder (`app.py` lines 82-185)

Form fields are modelled as already-rendered optional strings (`None` models
a missing key, for which `dict.get` substitutes the default).  List-valued
fields carry items with an optional `title`; `none` for the whole list models
an absent or empty (falsy) value, matching the `if form_data.get(...)`
truthiness tests in the source.  Literal braces inside the JSON templates are
written with `\x7b`/`\x7d` escapes. -/

/-- An entry of `goals` / `mainFocus`, or the `trainingLevel` /
`workoutLocation` object: a dict from which only `title` is read. -/
structure TitledItem where
  title : Option String

/-- The `formData` object of the request body. -/
structure FormData where
  gender : Option String := none
  age : Option String := none
  height : Option String := none
  weight : Option String := none
  bmi : Option String := none
  goals : Option (List TitledItem) := none
  mainFocus : Option (List TitledItem) := none
  trainingLevel : Option TitledItem := none
  workoutLocation : Option TitledItem := none

/-- `', '.join(... .get('title', '') ...)` (lines 96, 102). -/
def joinTitles (items : List TitledItem) : String :=
  String.intercalate ", " (items.map (fun it => it.title.getD ""))

/-- The `User Profile Information` block (lines 88-111). -/
def profileBlock (fd : FormData) : String :=
  "User Profile Information:\n" ++
  "- Gender: " ++ fd.gender.getD "Not specified" ++ "\n" ++
  "- Age: " ++ fd.age.getD "Not specified" ++ "\n" ++
  "- Height: " ++ fd.height.getD "Not specified" ++ " cm\n" ++
  "- Weight: " ++ fd.weight.getD "Not specified" ++ " kg\n" ++
  "- BMI: " ++ fd.bmi.getD "Not calculated" ++ "\n" ++
  (match fd.goals with
   | some gs => "- Fitness Goals: " ++ joinTitles gs ++ "\n"
   | none => "- Fitness Goals: Not specified\n") ++
  (match fd.mainFocus with
   | some fs => "- Main Focus Areas: " ++ joinTitles fs ++ "\n"
   | none => "- Main Focus Areas: Not specified\n") ++
  "- Training Level: " ++
    (match fd.trainingLevel with
     | some t => t.title.getD "Not specified"
     | none => "Not specified") ++ "\n" ++
  "- Workout Location: " ++
    (match fd.workoutLocation with
     | some t => t.title.getD "Not specified"
     | none => "Not specified") ++ "\n\n"

/-- The body-composition-exclusion sentence appended when no image is present
(line 114), without its two trailing newlines.  It contains no newline
character. -/
def noteSentence : String :=
  "NOTE: No body image was provided, so DO NOT include any body composition analysis, body fat percentage, muscle definition, posture analysis, or visual body assessments. Focus only on creating a workout plan and recommendations based on the provided profile information."

/-- Opening sentence of the prompt (lines 82-85). -/
def basePrompt (hasImage : Bool) : String :=
  "Analyze the provided fitness data" ++ (if hasImage then " and image" else "") ++
  " and provide a comprehensive assessment in the following JSON format.\n\n"

/-- The rendered profile section of the prompt: the profile block when form
data is present, empty otherwise (lines 87-111). -/
def profileRendered : Option FormData → String
  | some fd => profileBlock fd
  | none => ""

/-- The closing request line (line 116). -/
def closingLine : String :=
  "Please provide assessment in the following JSON format:"

/-- The realism instruction appended at line 185. -/
def provideLine : String :=
  "\n\nProvide realistic assessments based on what you can observe. Replace all bracketed placeholders with actual content."

/-- The full prompt text (lines 82-116 plus the line-185 suffix). -/
def promptText (hasImage : Bool) (form : Option FormData) : String :=
  basePrompt hasImage ++
  profileRendered form ++
  (if hasImage then "" else noteSentence ++ "\n\n") ++
  closingLine ++
  provideLine

/-- The `json_structure` template selected when an image is present
(lines 127-157). -/
def jsonStructureImage : String :=
  "\n\x7b\n  \"fitness_score\": [number 1-100],\n  \"has_body_composition\": true,\n  \"body_composition\": \x7b\n    \"muscle_definition\": \"[detailed analysis of visible muscle definition]\",\n    \"body_fat_percentage\": \"[estimated percentage or range]\",\n    \"posture_analysis\": \"[assessment of posture and alignment]\",\n    \"symmetry\": \"[evaluation of muscle balance and symmetry]\"\n  \x7d,\n  \"areas_for_improvement\": [\n    \"[specific improvement areas based on image and profile]\"\n  ],\n  \"workout_plan\": \x7b\n    \"day_1\": \x7b\n      \"name\": \"[workout name]\",\n      \"exercises\": [\n        \x7b\"name\": \"[exercise name]\", \"sets\": [number], \"reps\": \"[rep range]\", \"rest\": \"[rest time]\"\x7d\n      ]\n    \x7d\n  \x7d,\n  \"nutrition_recommendations\": [\n    \"[personalized nutrition advice]\"\n  ],\n  \"recovery_recommendations\": [\n    \"[recovery and rest advice]\"\n  ],\n  \"progress_tracking\": [\n    \"[methods to track progress]\"\n  ]\n\x7d"

/-- The `json_structure` template selected when no image is present
(lines 159-183). -/
def jsonStructureNoImage : String :=
  "\n\x7b\n  \"fitness_score\": [number 1-100],\n  \"has_body_composition\": false,\n  \"areas_for_improvement\": [\n    \"[improvement areas based on profile data only]\"\n  ],\n  \"workout_plan\": \x7b\n    \"day_1\": \x7b\n      \"name\": \"[workout name]\",\n      \"exercises\": [\n        \x7b\"name\": \"[exercise name]\", \"sets\": [number], \"reps\": \"[rep range]\", \"rest\": \"[rest time]\"\x7d\n      ]\n    \x7d\n  \x7d,\n  \"nutrition_recommendations\": [\n    \"[general nutrition advice based on goals and profile]\"\n  ],\n  \"recovery_recommendations\": [\n    \"[recovery advice]\"\n  ],\n  \"progress_tracking\": [\n    \"[non-visual progress tracking methods]\"\n  ]\n\x7d"

/-- Template selection by image presence (lines 126, 158). -/
def jsonStructure (hasImage : Bool) : String :=
  if hasImage then jsonStructureImage else jsonStructureNoImage

/-- The text of the user message sent upstream:
`prompt_text + json_structure` (line 191). -/
def messageText (hasImage : Bool) (form : Option FormData) : String :=
  promptText hasImage form ++ jsonStructure hasImage

/-- The image attachment URL embedded when an image is present (line 200). -/
def imageAttachment (img : String) : String :=
  "data:image/jpeg;base64," ++ img

/-! ### Image validation (`app.py` lines 61-77) -/

/-- Substring test, modelling Python's `'base64,' in s` (line 64). -/
def occurs (pat : List Char) : List Char → Bool
  | [] => pat.isEmpty
  | c :: rest => pat.isPrefixOf (c :: rest) || occurs pat rest

/-- Python's `str.split(sep)` for a nonempty separator: non-overlapping
left-to-right splitting.  (Used at line 65 as `split('base64,')[1]`, which
keeps the segment between the first and second occurrence of the
separator.) -/
def consHead (c : Char) : List (List Char) → List (List Char)
  | [] => [[c]]
  | s :: ss => (c :: s) :: ss

def pySplit (sep : List Char) : List Char → List (List Char)
  | [] => [[]]
  | c :: rest =>
    if sep.isPrefixOf (c :: rest) ∧ sep ≠ [] then
      [] :: pySplit sep ((c :: rest).drop sep.length)
    else
      consHead c (pySplit sep rest)
termination_by l => l.length
decreasing_by
  · rename_i h
    have hs : 1 ≤ sep.length := by
      cases hsep : sep with
      | nil => exact absurd hsep h.2
      | cons a t => simp
    simp only [List.length_drop, List.length_cons]
    omega
  · simp [List.length_cons]

/-- Fuel-based evaluator for `pySplit`. -/
def pySplitE (sep : List Char) : Nat → List Char → List (List Char)
  | 0, l => [l]
  | _, [] => [[]]
  | fuel + 1, c :: rest =>
    if sep.isPrefixOf (c :: rest) ∧ sep ≠ [] then
      [] :: pySplitE sep fuel ((c :: rest).drop sep.length)
    else
      consHead c (pySplitE sep fuel rest)


/-- The data-URL marker searched for and split on (lines 64-65). -/
def base64Marker : List Char := "base64,".data

/-- Padding step (lines 68-70): `padding = 4 - (len % 4)`, appended only when
it is not 4. -/
def b64Pad (l : List Char) : List Char :=
  let padding := 4 - l.length % 4
  if padding ≠ 4 then l ++ List.replicate padding '=' else l

/-- The normalised image string: strip through the `base64,` marker using
`split('base64,')[1]` when the marker occurs, then pad (lines 63-70).  This
is the string handed to `base64.b64decode` and embedded in the upstream
attachment. -/
def normalizeImage (img : String) : String :=
  let l := img.data
  let stripped := if occurs base64Marker l then (pySplitE base64Marker l.length l).getD 1 [] else l
  ⟨b64Pad stripped⟩

/-- The standard base64 alphabet (without padding). -/
def isB64Char (c : Char) : Bool :=
  ('A' ≤ c && c ≤ 'Z') || ('a' ≤ c && c ≤ 'z') || c.isDigit || c = '+' || c = '/'

/-- CPython's non-strict `binascii.a2b_base64` acceptance test, tracking the
quad position and the running pad count: characters outside the alphabet are
discarded; a pad at quad position ≥ 2 that completes the quad ends decoding
successfully (excess input ignored); data characters reset the pad count;
at end of input the quad position must be 0. -/
def a2bGo : List Char → Nat → Nat → Bool
  | [], quad, _ => quad == 0
  | c :: rest, quad, pads =>
    if c = '=' then
      if 2 ≤ quad then
        if 4 ≤ quad + (pads + 1) then true
        else a2bGo rest quad (pads + 1)
      else a2bGo rest quad pads
    else if isB64Char c then a2bGo rest ((quad + 1) % 4) 0
    else a2bGo rest quad pads

/-- `base64.b64decode(s)` succeeds: `s` must encode to ASCII and pass the
non-strict base64 state machine (line 73). -/
def b64DecodeOk (l : List Char) : Bool :=
  l.all (fun c => c.toNat ≤ 127) && a2bGo l 0 0

/-! ### Upstream call, retry loop and request handler
(`app.py` lines 45-77, 221-390) -/

/-- An error captured into `last_error`: message, HTTP status for the reply,
and the optional `raw_response` payload. -/
structure ErrInfo where
  error : String
  status : Nat
  raw : Option String

/-- Body of the handler's JSON reply. -/
inductive RespBody where
  | success : JVal → RespBody
  | failure : String → Option String → RespBody

/-- An HTTP reply: status code and body. -/
structure HttpResponse where
  status : Nat
  body : RespBody

/-- Abstract outcome of one upstream POST: a non-success HTTP status with the
extracted error message, a successful reply with `choices[0].message.content`,
a timeout, or a network-level failure. -/
inductive Outcome where
  | httpErr : Nat → String → Outcome
  | ok : String → Outcome
  | timeout : Outcome
  | netFail : Outcome

/-- The response-normalisation pipeline applied to upstream content
(lines 281-290): `strip`, remove ```` ```json ```` openers, remove a trailing
```` ``` ```` closer, then the two bare-word repairs, comma pass first. -/
def normalizeText (l : List Char) : List Char :=
  let cleaned := stripTrailingFence (stripJsonOpenersE (pyStripL l).length (pyStripL l))
  fixBareE rbrace (fixBareE ',' cleaned.length cleaned).length (fixBareE ',' cleaned.length cleaned)

/-- Lines 292-320: find the greedy brace span in the normalised text and
parse it; on failure produce the corresponding `last_error` (the textual
detail of `json.JSONDecodeError` appended at line 337 is abstracted away; no
claim inspects it). -/
def processContent (content : String) : Except ErrInfo JVal :=
  match findSpan (normalizeText content.data) with
  | some span =>
    match jsonLoads span with
    | some v => Except.ok v
    | none => Except.error ⟨"Failed to parse AI response as JSON", 500, some content⟩
  | none => Except.error ⟨"No valid JSON found in AI response", 500, some content⟩

/-- One iteration of the retry loop body (lines 226-342): classify the
outcome of one upstream attempt as a parsed analysis or a `last_error`. -/
def processAttempt : Outcome → Except ErrInfo JVal
  | .httpErr st msg => Except.error ⟨msg, st, none⟩
  | .ok content =>
    if content = "" then Except.error ⟨"OpenAI returned empty response", 500, none⟩
    else processContent content
  | .timeout => Except.error ⟨"Analysis timeout. Please try again.", 504, none⟩
  | .netFail => Except.error ⟨"Service communication error", 502, none⟩

/-- The error reply built from a `last_error` (each failure branch and the
post-loop fallback, lines 251-254, 271-274, 316-320, 335-339, 356-359,
372-375, 378-383). -/
def errResponse (e : ErrInfo) : HttpResponse := ⟨e.status, .failure e.error e.raw⟩

/-- `max_retries = 2` (line 222). -/
def maxRetries : Nat := 2

/-- The retry loop (lines 225-383): `f n` is the outcome of the `n`-th
upstream POST; `remaining` counts loop iterations left; returns the HTTP
reply together with the number of upstream calls made.  A success returns
immediately; a failure on the last iteration returns the error reply; the
fuel-exhausted case models the (unreachable for `max_retries ≥ 1`) fall
through to line 378. -/
def retryGo (f : Nat → Outcome) : Nat → Nat → Option ErrInfo → HttpResponse × Nat
  | attempt, 0, lastErr =>
    ((match lastErr with
      | some e => errResponse e
      | none => ⟨500, .failure "Server error" none⟩), attempt)
  | attempt, remaining + 1, _ =>
    match processAttempt (f attempt) with
    | Except.ok v => (⟨200, .success v⟩, attempt + 1)
    | Except.error e =>
      if remaining = 0 then (errResponse e, attempt + 1)
      else retryGo f (attempt + 1) remaining (some e)

/-- The whole upstream stage: run the loop with `max_retries` iterations. -/
def callUpstream (f : Nat → Outcome) : HttpResponse × Nat :=
  retryGo f 0 maxRetries none

/-- Python truthiness of an optional string (absent or empty is falsy). -/
def pyTruthy : Option String → Bool
  | none => false
  | some s => !(s == "")

/-- The request body of `POST /analyze`.  `formData = none` models an absent
or falsy (empty-dict) `formData` value. -/
structure AnalyzeRequest where
  image : Option String := none
  formData : Option FormData := none

/-- The `/analyze` handler (lines 45-390) for a parsed JSON body (`none`
models a missing/empty body, line 47): validate, then run the upstream stage.
Returns the HTTP reply and the number of upstream calls made. -/
def handleAnalyze (data : Option AnalyzeRequest) (f : Nat → Outcome) : HttpResponse × Nat :=
  match data with
  | none => (⟨400, .failure "No data received" none⟩, 0)
  | some d =>
    if !pyTruthy d.image && !d.formData.isSome then
      (⟨400, .failure "Either image or form data must be provided" none⟩, 0)
    else
      match d.image with
      | some img =>
        if img ≠ "" then
          if b64DecodeOk (normalizeImage img).data then callUpstream f
          else (⟨400, .failure "Invalid image format" none⟩, 0)
        else callUpstream f
      | none => callUpstream f

/-- The parsed analysis recovered from upstream content, when any. -/
def parsedAnalysis (content : List Char) : Option JVal :=
  match findSpan (normalizeText content) with
  | some span => jsonLoads span
  | none => none

/-- The cleaning stage of the Normalizer (lines 281-285): `strip`, then the
two fence substitutions, in source order. -/
def fenceCleaned (l : List Char) : List Char :=
  stripTrailingFence (stripJsonOpenersE (pyStripL l).length (pyStripL l))

/-- Shared context hypotheses for reasoning about one repair occurrence:
the surroundings are inert for both repair passes, contain no backtick, and
the ends of the whole content are not whitespace. -/
structure InertCtx (pre post : List Char) : Prop where
  pre_comma : fixBare ',' pre = pre
  pre_brace : fixBare rbrace pre = pre
  post_comma : fixBare ',' post = post
  post_brace : fixBare rbrace post = post
  pre_bt : ∀ c ∈ pre, ¬c = bt
  post_bt : ∀ c ∈ post, ¬c = bt
  pre_head : ∀ c, pre.head? = some c → isPySpace c = false
  post_last : ∀ c, post.getLast? = some c → isPySpace c = false

/-- Modelled from the spec (C8): strip everything up to and including the
first `base64,` marker when one is present.  This is the claim's reading of
the prefix strip; the code instead keeps `split('base64,')[1]`, the segment
between the first and second marker. -/
def specStripMarker : List Char → List Char
  | [] => []
  | c :: rest =>
    if base64Marker.isPrefixOf (c :: rest) then (c :: rest).drop base64Marker.length
    else specStripMarker rest

/-- Modelled from the spec (C8): normalisation as the claim describes it -
strip through the first marker, then pad to a multiple of four. -/
def specNormalizeImage (img : String) : String :=
  ⟨b64Pad (if occurs base64Marker img.data then specStripMarker img.data else img.data)⟩

/-! ## Fuel bridges and general lemmas -/

theorem stripJsonOpenersE_eq :
    ∀ (fuel : Nat) (l : List Char), l.length ≤ fuel →
      stripJsonOpenersE fuel l = stripJsonOpeners l := by
  intro fuel
  induction fuel with
  | zero =>
    intro l hl
    have : l = [] := List.length_eq_zero.mp (Nat.le_zero.mp hl)
    subst this
    simp [stripJsonOpenersE, stripJsonOpeners]
  | succ n ih =>
    intro l hl
    match l with
    | [] => simp [stripJsonOpenersE, stripJsonOpeners]
    | c :: rest =>
      have hlen : rest.length ≤ n := by
        have := hl
        simp only [List.length_cons] at this
        omega
      rw [stripJsonOpeners, stripJsonOpenersE]
      by_cases hp : fenceOpen.isPrefixOf (c :: rest) = true
      · rw [if_pos hp, if_pos hp]
        apply ih
        have h1 : ((rest.drop 6).dropWhile isPySpace).length ≤ (rest.drop 6).length :=
          (List.dropWhile_suffix _).length_le
        have h2 : (rest.drop 6).length ≤ rest.length := by
          simp [List.length_drop]
        omega
      · rw [if_neg hp, if_neg hp, ih rest hlen]

theorem fixBareE_eq (close : Char) :
    ∀ (fuel : Nat) (l : List Char), l.length ≤ fuel →
      fixBareE close fuel l = fixBare close l := by
  intro fuel
  induction fuel with
  | zero =>
    intro l hl
    have : l = [] := List.length_eq_zero.mp (Nat.le_zero.mp hl)
    subst this
    simp [fixBareE, fixBare]
  | succ n ih =>
    intro l hl
    match l with
    | [] => simp [fixBareE, fixBare]
    | c :: rest =>
      have hlen : rest.length ≤ n := by
        have := hl
        simp only [List.length_cons] at this
        omega
      rw [fixBare, fixBareE]
      by_cases hc : c = ':'
      · simp only [hc, if_true]
        cases hts : trySubst close rest with
        | none => rw [ih rest hlen]
        | some p =>
          match p with
          | (w, rem) =>
            have hrl : rem.length ≤ n := by
              have := trySubst_some_length hts
              omega
            simp only []
            rw [ih rem hrl]
      · simp only [hc, if_false]
        rw [ih rest hlen]

theorem pySplitE_eq (sep : List Char) :
    ∀ (fuel : Nat) (l : List Char), l.length ≤ fuel → pySplitE sep fuel l = pySplit sep l := by
  intro fuel
  induction fuel with
  | zero =>
    intro l hl
    have : l = [] := List.length_eq_zero.mp (Nat.le_zero.mp hl)
    subst this
    simp [pySplitE, pySplit]
  | succ n ih =>
    intro l hl
    match l with
    | [] => simp [pySplitE, pySplit]
    | c :: rest =>
      have hlen : rest.length ≤ n := by
        have := hl
        simp only [List.length_cons] at this
        omega
      rw [pySplit, pySplitE]
      by_cases hp : sep.isPrefixOf (c :: rest) ∧ sep ≠ []
      · rw [if_pos hp, if_pos hp]
        have hs : 1 ≤ sep.length := by
          cases hsep : sep with
          | nil => exact absurd hsep hp.2
          | cons a t => simp
        rw [ih]
        simp only [List.length_drop, List.length_cons]
        omega
      · rw [if_neg hp, if_neg hp, ih rest hlen]

/-! ## General lemmas about the repair scanner -/

theorem space_ne_colon {c : Char} (h : isPySpace c = true) : ¬c = ':' := by
  intro hc; subst hc; simp [isPySpace] at h

theorem ident_ne_colon {c : Char} (h : isIdentChar c = true) : ¬c = ':' := by
  intro hc; subst hc; simp [isIdentChar, isIdentStart] at h

theorem space_ne_bt {c : Char} (h : isPySpace c = true) : ¬c = bt := by
  intro hc; subst hc; simp [isPySpace, bt] at h

theorem ident_ne_bt {c : Char} (h : isIdentChar c = true) : ¬c = bt := by
  intro hc; subst hc; simp [isIdentChar, isIdentStart, bt] at h

theorem space_not_ident {c : Char} (h : isPySpace c = true) : isIdentChar c = false := by
  simp only [isPySpace, Bool.or_eq_true, decide_eq_true_eq] at h
  rcases h with ((((h | h) | h) | h) | h) | h <;> subst h <;> decide

theorem ident_not_space {c : Char} (h : isIdentChar c = true) : isPySpace c = false := by
  by_contra hs
  have hs' : isPySpace c = true := by
    cases hps : isPySpace c with
    | false => exact absurd hps hs
    | true => rfl
  have := space_not_ident hs'
  rw [this] at h
  exact Bool.false_ne_true h

/-- Stop lemma: `takeWhile` over an append whose junction character fails the
predicate only sees the left part. -/
theorem takeWhile_append_stop {p : Char → Bool} {x : Char} (hx : p x = false)
    (xs ys : List Char) : (xs ++ x :: ys).takeWhile p = xs.takeWhile p := by
  rw [List.takeWhile_append]
  split
  · rename_i hlen
    have hxs : xs.takeWhile p = xs :=
      (List.takeWhile_prefix p).eq_of_length hlen
    rw [List.takeWhile_cons_of_neg (by simp [hx]), List.append_nil, hxs]
  · rfl

/-- Stop lemma: `dropWhile` over an append whose junction character fails the
predicate keeps the junction and right part intact. -/
theorem dropWhile_append_stop {p : Char → Bool} {x : Char} (hx : p x = false)
    (xs ys : List Char) : (xs ++ x :: ys).dropWhile p = xs.dropWhile p ++ x :: ys := by
  rw [List.dropWhile_append]
  split
  · rename_i hemp
    have : xs.dropWhile p = [] := by
      cases h : xs.dropWhile p with
      | nil => rfl
      | cons a t => rw [h] at hemp; simp at hemp
    rw [this, List.dropWhile_cons_of_neg (by simp [hx])]
    simp
  · rfl

/-- Appending text after a junction character that can take part in no match
commutes with `trySubst`. -/
theorem trySubst_append_stop {close x : Char} (hx1 : isPySpace x = false)
    (hx2 : isIdentChar x = false) (hx3 : ¬x = close) (r b : List Char) :
    trySubst close (r ++ x :: b) =
      (trySubst close r).map (fun p => (p.1, p.2 ++ x :: b)) := by
  unfold trySubst
  rw [dropWhile_append_stop hx1, takeWhile_append_stop hx2,
    dropWhile_append_stop hx2, dropWhile_append_stop hx1]
  cases hhd : ((r.dropWhile isPySpace).takeWhile isIdentChar).head? with
  | none => simp
  | some c0 =>
    by_cases hst : isIdentStart c0
    · simp only [hst, if_pos]
      cases hdw : ((r.dropWhile isPySpace).dropWhile isIdentChar).dropWhile isPySpace with
      | nil =>
        simp only [hdw, List.nil_append]
        rw [if_neg hx3]
        simp
      | cons c2 r4 =>
        simp only [hdw, List.cons_append]
        by_cases hc2 : c2 = close
        · rw [if_pos hc2, if_pos hc2]; simp
        · rw [if_neg hc2, if_neg hc2]; simp
    · simp [hst]

/-- Equation for the scanner at a colon whose lookahead matches. -/
theorem fixBare_colon_some {close : Char} {rest w rem : List Char}
    (hts : trySubst close rest = some (w, rem)) :
    fixBare close (':' :: rest) =
      ':' :: ' ' :: '"' :: (w ++ '"' :: close :: fixBare close rem) := by
  rw [fixBare, if_pos rfl]
  split
  · rename_i w' rem' heq
    have h2 := heq.symm.trans hts
    injection h2 with h3
    injection h3 with h4 h5
    subst h4
    subst h5
    rfl
  · rename_i heq
    rw [heq] at hts
    cases hts

/-- Equation for the scanner at a colon whose lookahead does not match. -/
theorem fixBare_colon_none {close : Char} {rest : List Char}
    (hts : trySubst close rest = none) :
    fixBare close (':' :: rest) = ':' :: fixBare close rest := by
  rw [fixBare, if_pos rfl]
  split
  · rename_i w' rem' heq
    rw [heq] at hts
    cases hts
  · rfl

/-- Equation for the scanner at a non-colon character. -/
theorem fixBare_cons_ne {close c : Char} {rest : List Char} (hcc : ¬c = ':') :
    fixBare close (c :: rest) = c :: fixBare close rest := by
  rw [fixBare, if_neg hcc]

/-- The scanner splits at any colon: no match of the repair pattern can
contain a colon other than as its first character. -/
theorem fixBare_append_colon {close : Char} (hc : ¬(':' : Char) = close)
    (a b : List Char) :
    fixBare close (a ++ ':' :: b) = fixBare close a ++ fixBare close (':' :: b) := by
  suffices h : ∀ (n : Nat) (a b : List Char), a.length ≤ n →
      fixBare close (a ++ ':' :: b) = fixBare close a ++ fixBare close (':' :: b) from
    h a.length a b le_rfl
  intro n
  induction n using Nat.strong_induction_on with
  | _ n ih =>
    intro a b hn
    match a with
    | [] => simp [fixBare]
    | c :: a' =>
      have ha' : a'.length < n := by
        simp only [List.length_cons] at hn
        omega
      rw [List.cons_append]
      by_cases hcc : c = ':'
      · subst hcc
        have hstep := @trySubst_append_stop close ':' (by decide) (by decide) hc a' b
        cases hts : trySubst close a' with
        | none =>
          rw [hts, Option.map_none'] at hstep
          rw [fixBare_colon_none hstep, fixBare_colon_none hts,
            ih a'.length ha' a' b le_rfl]
          rfl
        | some p =>
          match p with
          | (w, rem) =>
            rw [hts, Option.map_some'] at hstep
            rw [fixBare_colon_some hstep, fixBare_colon_some hts]
            have hrem : rem.length < n := by
              have := trySubst_some_length hts
              omega
            rw [ih rem.length hrem rem b le_rfl]
            simp
      · rw [fixBare_cons_ne hcc, fixBare_cons_ne hcc, ih a'.length ha' a' b le_rfl]
        rfl

/-- Colon-free text passes through the scanner unchanged (the scan continues
in the appended remainder). -/
theorem fixBare_no_colon {close : Char} :
    ∀ (a b : List Char), (∀ c ∈ a, ¬c = ':') →
      fixBare close (a ++ b) = a ++ fixBare close b := by
  intro a
  induction a with
  | nil => intro b _; simp
  | cons c a' ih =>
    intro b ha
    have hc : ¬c = ':' := ha c (by simp)
    rw [List.cons_append, fixBare, if_neg hc, ih b (fun x hx => ha x (by simp [hx]))]
    simp

/-- Colon-free text is a fixed point of the scanner. -/
theorem fixBare_eq_self_of_no_colon {close : Char} {a : List Char}
    (ha : ∀ c ∈ a, ¬c = ':') : fixBare close a = a := by
  have h := @fixBare_no_colon close a [] ha
  rw [List.append_nil] at h
  rw [h]
  simp [fixBare]

/-- `dropWhile` is the identity when the head fails the predicate. -/
theorem dropWhile_eq_self_of_head {p : Char → Bool} :
    ∀ {l : List Char}, (∀ c, l.head? = some c → p c = false) → l.dropWhile p = l := by
  intro l h
  cases l with
  | nil => rfl
  | cons c t => exact List.dropWhile_cons_of_neg (by simp [h c rfl])

/-- The lookahead of the repair pattern at an occurrence
`: ws1 word ws2 x ...`: it matches exactly when `x` is the closing
character. -/
theorem trySubst_at_occurrence {close x c0 : Char} {ws1 ws2 w' post : List Char}
    (hws1 : ∀ c ∈ ws1, isPySpace c = true)
    (hws2 : ∀ c ∈ ws2, isPySpace c = true)
    (hstart : isIdentStart c0 = true)
    (hw : ∀ c ∈ c0 :: w', isIdentChar c = true)
    (hx_id : isIdentChar x = false)
    (hx_sp : isPySpace x = false) :
    trySubst close (ws1 ++ (c0 :: w') ++ ws2 ++ x :: post) =
      if x = close then some (c0 :: w', post) else none := by
  unfold trySubst
  have e1 : (ws1 ++ (c0 :: w') ++ ws2 ++ x :: post).dropWhile isPySpace =
      (c0 :: w') ++ ws2 ++ x :: post := by
    rw [List.append_assoc, List.append_assoc, List.dropWhile_append_of_pos hws1,
      ← List.append_assoc]
    exact dropWhile_eq_self_of_head
      (fun c hc => by
        cases hc
        exact ident_not_space (hw c0 (by simp)))
  rw [e1]
  have e2 : ((c0 :: w') ++ ws2 ++ x :: post).takeWhile isIdentChar = c0 :: w' := by
    rw [List.append_assoc, List.takeWhile_append_of_pos hw]
    have : (ws2 ++ x :: post).takeWhile isIdentChar = [] := by
      cases ws2 with
      | nil => exact List.takeWhile_cons_of_neg (by simp [hx_id])
      | cons c t =>
        exact List.takeWhile_cons_of_neg (by simp [space_not_ident (hws2 c (by simp))])
    rw [this, List.append_nil]
  rw [e2]
  have e3 : ((c0 :: w') ++ ws2 ++ x :: post).dropWhile isIdentChar = ws2 ++ x :: post := by
    rw [List.append_assoc, List.dropWhile_append_of_pos hw]
    cases ws2 with
    | nil => exact List.dropWhile_cons_of_neg (by simp [hx_id])
    | cons c t =>
      exact List.dropWhile_cons_of_neg (by simp [space_not_ident (hws2 c (by simp))])
  rw [e3]
  have e4 : (ws2 ++ x :: post).dropWhile isPySpace = x :: post := by
    rw [List.dropWhile_append_of_pos hws2]
    exact List.dropWhile_cons_of_neg (by simp [hx_sp])
  rw [e4]
  simp [hstart]

/-- After a colon followed by whitespace, a double quote blocks any match. -/
theorem trySubst_quote {close : Char} {ws r : List Char}
    (hws : ∀ c ∈ ws, isPySpace c = true) :
    trySubst close (ws ++ '"' :: r) = none := by
  unfold trySubst
  have e1 : (ws ++ '"' :: r).dropWhile isPySpace = '"' :: r := by
    rw [List.dropWhile_append_of_pos hws]
    exact List.dropWhile_cons_of_neg (by decide)
  rw [e1]
  have e2 : ('"' :: r).takeWhile isIdentChar = [] :=
    List.takeWhile_cons_of_neg (by decide)
  rw [e2]
  rfl

/-- The fenced-opener pattern cannot match at a non-backtick character. -/
theorem fenceOpen_no_match {c : Char} {rest : List Char} (hc : ¬c = bt) :
    fenceOpen.isPrefixOf (c :: rest) = false := by
  have : ¬fenceOpen <+: c :: rest := by
    intro habs
    rcases habs with ⟨t, ht⟩
    rw [fenceOpen] at ht
    cases ht
    exact hc rfl
  cases hb : fenceOpen.isPrefixOf (c :: rest) with
  | false => rfl
  | true => exact absurd (List.isPrefixOf_iff_prefix.mp hb) this

/-- Backtick-free text is unchanged by the fence-opener substitution. -/
theorem stripJsonOpeners_no_bt :
    ∀ {l : List Char}, (∀ c ∈ l, ¬c = bt) → stripJsonOpeners l = l := by
  intro l
  induction l with
  | nil => intro _; simp [stripJsonOpeners]
  | cons c rest ih =>
    intro h
    rw [stripJsonOpeners]
    rw [fenceOpen_no_match (h c (by simp))]
    simp only [Bool.false_eq_true, if_false]
    rw [ih (fun x hx => h x (by simp [hx]))]

/-- Backtick-free text is unchanged by the trailing-fence substitution. -/
theorem stripTrailingFence_no_bt :
    ∀ {l : List Char}, (∀ c ∈ l, ¬c = bt) → stripTrailingFence l = l := by
  intro l
  induction l with
  | nil => intro _; rfl
  | cons c rest ih =>
    intro h
    rw [stripTrailingFence]
    have hc : (c = bt && rest.take 2 = [bt, bt] && (rest.drop 2).all isPySpace) = false := by
      have : ¬c = bt := h c (by simp)
      simp [this]
    rw [hc]
    simp only [Bool.false_eq_true, if_false]
    rw [ih (fun x hx => h x (by simp [hx]))]

/-- `strip()` is the identity when neither end is whitespace. -/
theorem pyStripL_eq_self {l : List Char}
    (h1 : ∀ c, l.head? = some c → isPySpace c = false)
    (h2 : ∀ c, l.getLast? = some c → isPySpace c = false) : pyStripL l = l := by
  unfold pyStripL
  rw [dropWhile_eq_self_of_head h1]
  have hr : l.reverse.dropWhile isPySpace = l.reverse := by
    apply dropWhile_eq_self_of_head
    intro c hc
    rw [List.head?_reverse] at hc
    exact h2 c hc
  rw [hr, List.reverse_reverse]

/-- One repair pass leaves an already-quoted occurrence `: "word"X` intact
(inside inert surroundings). -/
theorem fixBare_skip_quoted {close' close : Char} {pre post w : List Char}
    (hcolon : ¬(':' : Char) = close')
    (hw : ∀ c ∈ w, isIdentChar c = true)
    (hclose_ne : ¬close = ':')
    (hpre : fixBare close' pre = pre)
    (hpost : fixBare close' post = post) :
    fixBare close' (pre ++ ':' :: ' ' :: '"' :: (w ++ '"' :: close :: post)) =
      pre ++ ':' :: ' ' :: '"' :: (w ++ '"' :: close :: post) := by
  rw [fixBare_append_colon hcolon, hpre]
  have hts : trySubst close' (' ' :: '"' :: (w ++ '"' :: close :: post)) = none := by
    have h := @trySubst_quote close' [' '] (w ++ '"' :: close :: post)
      (by intro c hc; simp at hc; subst hc; decide)
    simpa using h
  rw [fixBare_colon_none hts]
  have hnc : ∀ c ∈ ' ' :: '"' :: (w ++ ['"', close]), ¬c = ':' := by
    intro c hc
    simp only [List.mem_cons, List.mem_append] at hc
    rcases hc with rfl | rfl | hc | hc2
    · decide
    · decide
    · exact ident_ne_colon (hw c hc)
    · simp only [List.mem_cons, List.not_mem_nil, or_false] at hc2
      rcases hc2 with rfl | rfl
      · decide
      · exact hclose_ne
  have hshape : (' ' :: '"' :: (w ++ '"' :: close :: post)) =
      (' ' :: '"' :: (w ++ ['"', close])) ++ post := by simp
  rw [hshape, fixBare_no_colon _ post hnc, hpost]

/-- One repair pass leaves an unquoted occurrence `: ws word ws x` intact
when `x` is not its closing character (inside inert surroundings). -/
theorem fixBare_skip_occ {close' x c0 : Char} {pre post ws1 ws2 w' : List Char}
    (hcolon : ¬(':' : Char) = close')
    (hstart : isIdentStart c0 = true)
    (hw : ∀ c ∈ c0 :: w', isIdentChar c = true)
    (hws1 : ∀ c ∈ ws1, isPySpace c = true)
    (hws2 : ∀ c ∈ ws2, isPySpace c = true)
    (hx_id : isIdentChar x = false) (hx_sp : isPySpace x = false)
    (hx_ne : ¬x = close') (hx_nc : ¬x = ':')
    (hpre : fixBare close' pre = pre)
    (hpost : fixBare close' post = post) :
    fixBare close' (pre ++ ':' :: (ws1 ++ (c0 :: w') ++ ws2 ++ x :: post)) =
      pre ++ ':' :: (ws1 ++ (c0 :: w') ++ ws2 ++ x :: post) := by
  rw [fixBare_append_colon hcolon, hpre]
  have hts : trySubst close' (ws1 ++ (c0 :: w') ++ ws2 ++ x :: post) = none := by
    rw [trySubst_at_occurrence hws1 hws2 hstart hw hx_id hx_sp, if_neg hx_ne]
  rw [fixBare_colon_none hts]
  have hnc : ∀ c ∈ ws1 ++ (c0 :: w') ++ ws2 ++ [x], ¬c = ':' := by
    intro c hc
    simp only [List.mem_append, List.mem_cons, List.not_mem_nil, or_false] at hc
    rcases hc with ((hc | hc) | hc) | rfl
    · exact space_ne_colon (hws1 c hc)
    · rcases hc with rfl | hc
      · exact ident_ne_colon (hw c (by simp))
      · exact ident_ne_colon (hw c (by simp [hc]))
    · exact space_ne_colon (hws2 c hc)
    · exact hx_nc
  have hshape : ws1 ++ (c0 :: w') ++ ws2 ++ x :: post =
      (ws1 ++ (c0 :: w') ++ ws2 ++ [x]) ++ post := by simp
  rw [hshape, fixBare_no_colon _ post hnc, hpost]

/-- One repair pass rewrites an unquoted occurrence `: ws word ws X` (with
`X` its closing character) to `: "word"X`, inside inert surroundings. -/
theorem fixBare_hit_occ {close c0 : Char} {pre post ws1 ws2 w' : List Char}
    (hcolon : ¬(':' : Char) = close)
    (hstart : isIdentStart c0 = true)
    (hw : ∀ c ∈ c0 :: w', isIdentChar c = true)
    (hws1 : ∀ c ∈ ws1, isPySpace c = true)
    (hws2 : ∀ c ∈ ws2, isPySpace c = true)
    (hc_id : isIdentChar close = false) (hc_sp : isPySpace close = false)
    (hpre : fixBare close pre = pre)
    (hpost : fixBare close post = post) :
    fixBare close (pre ++ ':' :: (ws1 ++ (c0 :: w') ++ ws2 ++ close :: post)) =
      pre ++ ':' :: ' ' :: '"' :: ((c0 :: w') ++ '"' :: close :: post) := by
  rw [fixBare_append_colon hcolon, hpre]
  have hts : trySubst close (ws1 ++ (c0 :: w') ++ ws2 ++ close :: post) =
      some (c0 :: w', post) := by
    rw [trySubst_at_occurrence hws1 hws2 hstart hw hc_id hc_sp, if_pos rfl]
  rw [fixBare_colon_some hts, hpost]

end Fitness

namespace Fitness

/-- The computable pipeline agrees with its recursion-friendly form. -/
theorem normalizeText_eq (l : List Char) :
    normalizeText l =
      fixBare rbrace (fixBare ',' (stripTrailingFence (stripJsonOpeners (pyStripL l)))) := by
  unfold normalizeText
  rw [stripJsonOpenersE_eq _ _ le_rfl, fixBareE_eq _ _ _ le_rfl, fixBareE_eq _ _ _ le_rfl]

theorem getLast?_append_cons (a b : List Char) (c : Char) :
    (a ++ c :: b).getLast? = (c :: b).getLast? := by
  rw [List.getLast?_append]
  cases hg : (c :: b).getLast? with
  | none =>
    rw [List.getLast?_eq_none_iff] at hg
    cases hg
  | some v => rfl

end Fitness

namespace Fitness


/-- The cleaning stages (`strip` and the fence substitutions) are the
identity on contents of the occurrence shape. -/
theorem clean_id_of_parts {pre mid post : List Char} {close : Char}
    (hctx : InertCtx pre post)
    (hmid_bt : ∀ c ∈ mid, ¬c = bt)
    (hmid_sp : ∀ c, mid.head? = some c → isPySpace c = false)
    (hclose : close = ',' ∨ close = rbrace) :
    stripTrailingFence (stripJsonOpeners
      (pyStripL (pre ++ mid ++ close :: post))) = pre ++ mid ++ close :: post := by
  have hclose_bt : ¬close = bt := by
    rcases hclose with h | h <;> subst h <;> decide
  have hclose_sp : isPySpace close = false := by
    rcases hclose with h | h <;> subst h <;> decide
  have hbt : ∀ c ∈ pre ++ mid ++ close :: post, ¬c = bt := by
    intro c hc
    simp only [List.mem_append, List.mem_cons] at hc
    rcases hc with (hc | hc) | rfl | hc
    · exact hctx.pre_bt c hc
    · exact hmid_bt c hc
    · exact hclose_bt
    · exact hctx.post_bt c hc
  have hstrip : pyStripL (pre ++ mid ++ close :: post) = pre ++ mid ++ close :: post := by
    apply pyStripL_eq_self
    · intro c hc
      cases pre with
      | nil =>
        simp only [List.nil_append] at hc
        cases mid with
        | nil =>
          simp only [List.nil_append, List.head?_cons] at hc
          cases hc
          exact hclose_sp
        | cons m ms =>
          simp only [List.cons_append, List.head?_cons] at hc
          cases hc
          exact hmid_sp c rfl
      | cons p ps =>
        simp only [List.cons_append, List.head?_cons] at hc
        cases hc
        exact hctx.pre_head c rfl
    · intro c hc
      rw [getLast?_append_cons] at hc
      cases hpost : post with
      | nil =>
        subst hpost
        simp only [List.getLast?_singleton] at hc
        cases hc
        exact hclose_sp
      | cons p ps =>
        subst hpost
        have : (close :: p :: ps).getLast? = (p :: ps).getLast? := by
          rw [List.getLast?_cons_cons]
        rw [this] at hc
        exact hctx.post_last c hc
  rw [hstrip, stripJsonOpeners_no_bt hbt, stripTrailingFence_no_bt hbt]

end Fitness

namespace Fitness

/-- Full normalisation rewrites one bare-word occurrence `: ws word ws X`
(`X` = `,` or `\x7d`) to `: "word"X`, leaving inert surroundings unchanged. -/
theorem normalizeText_occurrence {pre post ws1 ws2 w' : List Char} {c0 close : Char}
    (hstart : isIdentStart c0 = true)
    (hw : ∀ c ∈ c0 :: w', isIdentChar c = true)
    (hws1 : ∀ c ∈ ws1, isPySpace c = true)
    (hws2 : ∀ c ∈ ws2, isPySpace c = true)
    (hclose : close = ',' ∨ close = rbrace)
    (hctx : InertCtx pre post) :
    normalizeText (pre ++ ':' :: (ws1 ++ (c0 :: w') ++ ws2 ++ close :: post)) =
      pre ++ ':' :: ' ' :: '"' :: ((c0 :: w') ++ '"' :: close :: post) := by
  rw [normalizeText_eq]
  have hshape : pre ++ ':' :: (ws1 ++ (c0 :: w') ++ ws2 ++ close :: post) =
      pre ++ (':' :: (ws1 ++ (c0 :: w') ++ ws2)) ++ close :: post := by
    simp [List.append_assoc]
  have hmid_bt : ∀ c ∈ ':' :: (ws1 ++ (c0 :: w') ++ ws2), ¬c = bt := by
    intro c hc
    simp only [List.mem_cons, List.mem_append] at hc
    rcases hc with rfl | (hc | rfl | hc) | hc
    · decide
    · exact space_ne_bt (hws1 c hc)
    · exact ident_ne_bt (hw c (by simp))
    · exact ident_ne_bt (hw c (by simp [hc]))
    · exact space_ne_bt (hws2 c hc)
  have hclean := clean_id_of_parts hctx hmid_bt
    (by intro c hc; simp only [List.head?_cons] at hc; cases hc; decide) hclose
  rw [hshape, hclean, ← hshape]
  rcases hclose with rfl | rfl
  · rw [fixBare_hit_occ (by decide) hstart hw hws1 hws2 (by decide) (by decide)
      hctx.pre_comma hctx.post_comma]
    exact fixBare_skip_quoted (by decide) hw (by decide) hctx.pre_brace hctx.post_brace
  · rw [fixBare_skip_occ (by decide) hstart hw hws1 hws2 (by decide) (by decide)
      (by decide) (by decide) hctx.pre_comma hctx.post_comma]
    exact fixBare_hit_occ (by decide) hstart hw hws1 hws2 (by decide) (by decide)
      hctx.pre_brace hctx.post_brace

/-- Full normalisation leaves the already-quoted form `: "word"X` unchanged
inside inert surroundings. -/
theorem normalizeText_quoted {pre post w' : List Char} {c0 close : Char}
    (hw : ∀ c ∈ c0 :: w', isIdentChar c = true)
    (hclose : close = ',' ∨ close = rbrace)
    (hctx : InertCtx pre post) :
    normalizeText (pre ++ ':' :: ' ' :: '"' :: ((c0 :: w') ++ '"' :: close :: post)) =
      pre ++ ':' :: ' ' :: '"' :: ((c0 :: w') ++ '"' :: close :: post) := by
  rw [normalizeText_eq]
  have hshape : pre ++ ':' :: ' ' :: '"' :: ((c0 :: w') ++ '"' :: close :: post) =
      pre ++ (':' :: ' ' :: '"' :: ((c0 :: w') ++ ['"'])) ++ close :: post := by
    simp [List.append_assoc]
  have hmid_bt : ∀ c ∈ ':' :: ' ' :: '"' :: ((c0 :: w') ++ ['"']), ¬c = bt := by
    intro c hc
    simp only [List.mem_cons, List.mem_append, List.not_mem_nil, or_false] at hc
    rcases hc with rfl | rfl | rfl | (rfl | hc) | rfl
    · decide
    · decide
    · decide
    · exact ident_ne_bt (hw c (by simp))
    · exact ident_ne_bt (hw c (by simp [hc]))
    · decide
  have hclean := clean_id_of_parts hctx hmid_bt
    (by intro c hc; simp only [List.head?_cons] at hc; cases hc; decide) hclose
  rw [hshape, hclean, ← hshape]
  have hclose_ne : ¬close = ':' := by
    rcases hclose with rfl | rfl <;> decide
  rw [fixBare_skip_quoted (by decide) hw hclose_ne hctx.pre_comma hctx.post_comma]
  exact fixBare_skip_quoted (by decide) hw hclose_ne hctx.pre_brace hctx.post_brace

end Fitness

namespace Fitness

/-- C2: for every upstream content containing a colon followed (after
optional whitespace) by a bare identifier-pattern word and then (after
optional whitespace) a comma or closing brace, inside surroundings that the
rest of the pipeline leaves alone, the Normalizer rewrites that occurrence to
the quoted form `: "word"X` before parsing, and the parsed result equals the
result of parsing the same text with the quoted substitution applied. -/
theorem c2_bare_word_value_quoted
    (pre post ws1 ws2 w' : List Char) (c0 close : Char)
    (hstart : isIdentStart c0 = true)
    (hw : ∀ c ∈ c0 :: w', isIdentChar c = true)
    (hws1 : ∀ c ∈ ws1, isPySpace c = true)
    (hws2 : ∀ c ∈ ws2, isPySpace c = true)
    (hclose : close = ',' ∨ close = rbrace)
    (hctx : InertCtx pre post) :
    normalizeText (pre ++ ':' :: (ws1 ++ (c0 :: w') ++ ws2 ++ close :: post)) =
      pre ++ ':' :: ' ' :: '"' :: ((c0 :: w') ++ '"' :: close :: post) ∧
    parsedAnalysis (pre ++ ':' :: (ws1 ++ (c0 :: w') ++ ws2 ++ close :: post)) =
      parsedAnalysis (pre ++ ':' :: ' ' :: '"' :: ((c0 :: w') ++ '"' :: close :: post)) := by
  have h1 := normalizeText_occurrence hstart hw hws1 hws2 hclose hctx
  have h2 := normalizeText_quoted hw hclose hctx
  refine ⟨h1, ?_⟩
  unfold parsedAnalysis
  rw [h1, h2]

/-- Witness for C2 at the spec's example: `"level": intermediate\x7d` is
rewritten to `"level": "intermediate"\x7d` and parses identically. -/
theorem c2_bare_word_value_quoted_witness :
    normalizeText "\x7b\"level\": intermediate\x7d".data =
      "\x7b\"level\": \"intermediate\"\x7d".data ∧
    parsedAnalysis "\x7b\"level\": intermediate\x7d".data =
      parsedAnalysis "\x7b\"level\": \"intermediate\"\x7d".data :=
  c2_bare_word_value_quoted "\x7b\"level\"".data [] [' '] [] "ntermediate".data 'i' rbrace
    (by decide) (by decide) (by decide) (by decide) (Or.inr rfl)
    ⟨fixBare_eq_self_of_no_colon (by decide), fixBare_eq_self_of_no_colon (by decide),
     fixBare_eq_self_of_no_colon (by decide), fixBare_eq_self_of_no_colon (by decide),
     by decide, by decide,
     by intro c hc; cases hc; decide,
     by intro c hc; cases hc⟩

end Fitness

namespace Fitness

/-- C3: the bare-word repair does not exempt the JSON keyword literals:
a bare `true`/`false`/`null` value followed by a comma or closing brace is
rewritten to the quoted string before parsing; consequently a successful
parse of content whose `has_body_composition` value is such a bare literal
yields the string `"true"`/`"false"`/`"null"` for that field, never a
boolean. -/
theorem c3_bare_literals_become_strings
    (pre post ws1 ws2 : List Char) (close : Char) (lit : List Char)
    (hlit : lit = "true".data ∨ lit = "false".data ∨ lit = "null".data)
    (hws1 : ∀ c ∈ ws1, isPySpace c = true)
    (hws2 : ∀ c ∈ ws2, isPySpace c = true)
    (hclose : close = ',' ∨ close = rbrace)
    (hctx : InertCtx pre post) :
    normalizeText (pre ++ ':' :: (ws1 ++ lit ++ ws2 ++ close :: post)) =
      pre ++ ':' :: ' ' :: '"' :: (lit ++ '"' :: close :: post) ∧
    callUpstream (fun _ => Outcome.ok ⟨"\x7b\"has_body_composition\": ".data ++ lit ++ [rbrace]⟩) =
      (⟨200, .success (.jobj [("has_body_composition".data, .jstr lit)])⟩, 1) ∧
    ∀ b : Bool,
      ¬parsedAnalysis ("\x7b\"has_body_composition\": ".data ++ lit ++ [rbrace]) =
        some (.jobj [("has_body_composition".data, .jbool b)]) := by
  have hrw : normalizeText (pre ++ ':' :: (ws1 ++ lit ++ ws2 ++ close :: post)) =
      pre ++ ':' :: ' ' :: '"' :: (lit ++ '"' :: close :: post) := by
    rcases hlit with rfl | rfl | rfl
    · exact @normalizeText_occurrence pre post ws1 ws2 "rue".data 't' close
        (by decide) (by decide) hws1 hws2 hclose hctx
    · exact @normalizeText_occurrence pre post ws1 ws2 "alse".data 'f' close
        (by decide) (by decide) hws1 hws2 hclose hctx
    · exact @normalizeText_occurrence pre post ws1 ws2 "ull".data 'n' close
        (by decide) (by decide) hws1 hws2 hclose hctx
  refine ⟨hrw, ?_, ?_⟩
  · rcases hlit with rfl | rfl | rfl <;> rfl
  · intro b
    have hpos : parsedAnalysis ("\x7b\"has_body_composition\": ".data ++ lit ++ [rbrace]) =
        some (.jobj [("has_body_composition".data, .jstr lit)]) := by
      rcases hlit with rfl | rfl | rfl <;> rfl
    rw [hpos]
    intro habs
    injection habs with h1
    injection h1 with h2
    injection h2 with h3 h3t
    injection h3 with h4 h5
    cases h5

/-- Witness for C3 at `lit = true`, `close = \x7d`, empty surroundings. -/
theorem c3_bare_literals_become_strings_witness :
    normalizeText "\x7b\"has_body_composition\": true\x7d".data =
      "\x7b\"has_body_composition\": \"true\"\x7d".data ∧
    callUpstream (fun _ => Outcome.ok "\x7b\"has_body_composition\": true\x7d") =
      (⟨200, .success (.jobj [("has_body_composition".data, .jstr "true".data)])⟩, 1) ∧
    ∀ b : Bool,
      ¬parsedAnalysis "\x7b\"has_body_composition\": true\x7d".data =
        some (.jobj [("has_body_composition".data, .jbool b)]) :=
  c3_bare_literals_become_strings "\x7b\"has_body_composition\"".data [] [' '] [] rbrace
    "true".data (Or.inl rfl) (by decide) (by decide) (Or.inr rfl)
    ⟨fixBare_eq_self_of_no_colon (by decide), fixBare_eq_self_of_no_colon (by decide),
     fixBare_eq_self_of_no_colon (by decide), fixBare_eq_self_of_no_colon (by decide),
     by decide, by decide,
     by intro c hc; cases hc; decide,
     by intro c hc; cases hc⟩

end Fitness

namespace Fitness

/-- The loop makes at most `attempt + remaining` upstream calls. -/
theorem retryGo_calls_le (g : Nat → Outcome) :
    ∀ (remaining attempt : Nat) (le : Option ErrInfo),
      (retryGo g attempt remaining le).2 ≤ attempt + remaining := by
  intro remaining
  induction remaining with
  | zero => intro attempt le; cases le <;> simp [retryGo]
  | succ n ih =>
    intro attempt le
    rw [retryGo]
    cases hg : processAttempt (g attempt) with
    | ok v => simp
    | error e =>
      by_cases hn : n = 0
      · subst hn
        simp
      · simp only [hn, if_false]
        have := ih (attempt + 1) (some e)
        omega

/-- C1: the upstream chat-completion call is attempted at most `max_retries
= 2` times per request; after a transient failure on each of the two
attempts, no third attempt is made and the HTTP response carries the last
observed error's status code and message. -/
theorem c1_retry_bounded_last_error
    (f : Nat → Outcome) (e0 e1 : ErrInfo)
    (h0 : processAttempt (f 0) = Except.error e0)
    (h1 : processAttempt (f 1) = Except.error e1) :
    callUpstream f = (⟨e1.status, .failure e1.error e1.raw⟩, 2) ∧
    ∀ g : Nat → Outcome, (callUpstream g).2 ≤ maxRetries := by
  constructor
  · show retryGo f 0 (1 + 1) none = _
    rw [retryGo, h0]
    simp only [if_neg (one_ne_zero)]
    rw [retryGo, h1]
    simp [errResponse]
  · intro g
    have := retryGo_calls_le g maxRetries 0 none
    simpa [callUpstream] using this

/-- Witness for C1: an upstream that replies 503 "busy" on both attempts. -/
theorem c1_retry_bounded_last_error_witness :
    callUpstream (fun _ => Outcome.httpErr 503 "busy") =
      (⟨503, .failure "busy" none⟩, 2) :=
  (c1_retry_bounded_last_error (fun _ => Outcome.httpErr 503 "busy")
    ⟨"busy", 503, none⟩ ⟨"busy", 503, none⟩ rfl rfl).1

end Fitness

namespace Fitness

/-- C6: a request body with neither `image` nor `formData` is answered with
HTTP 400 and a validation error, and the upstream API is never called (the
call counter stays 0), whatever the upstream would have replied. -/
theorem c6_missing_both_fields_rejected (f : Nat → Outcome) :
    handleAnalyze (some ⟨none, none⟩) f =
      (⟨400, .failure "Either image or form data must be provided" none⟩, 0) := rfl

/-- C7: an image string that fails base64 decoding after normalisation is
answered with HTTP 400 `Invalid image format`, and the upstream API is never
invoked, whatever the form data and upstream behaviour. -/
theorem c7_invalid_base64_rejected (img : String) (form : Option FormData)
    (f : Nat → Outcome) (himg : ¬img = "")
    (hbad : b64DecodeOk (normalizeImage img).data = false) :
    handleAnalyze (some ⟨some img, form⟩) f =
      (⟨400, .failure "Invalid image format" none⟩, 0) := by
  have ht : pyTruthy (some img) = true := by
    simp [pyTruthy, himg]
  unfold handleAnalyze
  simp [ht, himg, hbad]

/-- Witness for C7 at the spec's example `"not-base64!!"`. -/
theorem c7_invalid_base64_rejected_witness :
    handleAnalyze (some ⟨some "not-base64!!", none⟩) (fun _ => Outcome.timeout) =
      (⟨400, .failure "Invalid image format" none⟩, 0) :=
  c7_invalid_base64_rejected "not-base64!!" none (fun _ => Outcome.timeout)
    (by decide) (by decide)



/-- C8 counterexample: with two `base64,` markers the code keeps only the
segment between them (`split[1]`), not everything after the first marker as
the claim states. -/
theorem c8_counterexample_second_marker :
    normalizeImage "AAAbase64,BBBbase64,CC" = "BBB=" ∧
    specNormalizeImage "AAAbase64,BBBbase64,CC" = "BBBbase64,CC" ∧
    ¬normalizeImage "AAAbase64,BBBbase64,CC" =
      specNormalizeImage "AAAbase64,BBBbase64,CC" := by
  refine ⟨rfl, rfl, ?_⟩
  decide

/-- No occurrence of the separator means no split. -/
theorem pySplit_of_not_occurs {sep : List Char} :
    ∀ {l : List Char}, occurs sep l = false → pySplit sep l = [l] := by
  intro l
  induction l with
  | nil =>
    intro h
    rw [pySplit]
  | cons c rest ih =>
    intro h
    rw [occurs] at h
    have h1 : sep.isPrefixOf (c :: rest) = false := by
      cases hp : sep.isPrefixOf (c :: rest) with
      | false => rfl
      | true => rw [hp] at h; simp at h
    have h2 : occurs sep rest = false := by
      cases ho : occurs sep rest with
      | false => rfl
      | true => rw [ho] at h; simp at h
    rw [pySplit, if_neg (by simp [h1]), ih h2]
    rfl

/-- The padded string always has length a multiple of four. -/
theorem b64Pad_length (l : List Char) : (b64Pad l).length % 4 = 0 := by
  unfold b64Pad
  by_cases hp : 4 - l.length % 4 ≠ 4
  · rw [if_pos hp]
    simp only [List.length_append, List.length_replicate]
    omega
  · rw [if_neg hp]
    omega

/-- C8 (amended): validation splits on `base64,` and keeps the segment
between the first and second occurrence (the whole remainder when the marker
occurs exactly once, nothing at all of a marker-free string changes), then
appends `=` padding exactly when the remaining length is not a multiple of
4, so that the string passed to the decoder has length a multiple of 4. -/
theorem c8_split_segment_and_padding (img : String) (a b : List Char)
    (hsplit : pySplit base64Marker img.data = [a, b]) :
    normalizeImage img = ⟨b64Pad b⟩ ∧
    (∀ s : String, occurs base64Marker s.data = false →
      normalizeImage s = ⟨b64Pad s.data⟩) ∧
    ∀ s : String, (normalizeImage s).data.length % 4 = 0 := by
  refine ⟨?_, ?_, ?_⟩
  · have hocc : occurs base64Marker img.data = true := by
      cases ho : occurs base64Marker img.data with
      | true => rfl
      | false =>
        rw [pySplit_of_not_occurs ho] at hsplit
        cases hsplit
    simp only [normalizeImage, hocc, if_true]
    rw [pySplitE_eq _ _ _ le_rfl, hsplit]
    rfl
  · intro s hs
    simp only [normalizeImage, hs]
    simp
  · intro s
    simp only [normalizeImage]
    exact b64Pad_length _

/-- Witness for C8 at a single-marker data URL. -/
theorem c8_split_segment_and_padding_witness :
    normalizeImage "data:image/png;base64,QUJDRQ" = ⟨b64Pad "QUJDRQ".data⟩ :=
  (c8_split_segment_and_padding "data:image/png;base64,QUJDRQ"
    "data:image/png;".data "QUJDRQ".data
    (by rw [← pySplitE_eq base64Marker ("data:image/png;base64,QUJDRQ".data).length
        "data:image/png;base64,QUJDRQ".data le_rfl]
        decide)).1

end Fitness

namespace Fitness

theorem space_ne_lbrace {c : Char} (h : isPySpace c = true) : ¬c = lbrace := by
  intro hc; subst hc; simp [isPySpace, lbrace] at h

theorem space_ne_rbrace {c : Char} (h : isPySpace c = true) : ¬c = rbrace := by
  intro hc; subst hc; simp [isPySpace, rbrace] at h

/-- The fence-opener substitution ignores a bare trailing triple backtick
after backtick-free text. -/
theorem stripJsonOpeners_append_bt3 :
    ∀ {x : List Char}, (∀ c ∈ x, ¬c = bt) →
      stripJsonOpeners (x ++ [bt, bt, bt]) = x ++ [bt, bt, bt] := by
  intro x
  induction x with
  | nil =>
    intro _
    rw [List.nil_append]
    rw [stripJsonOpeners, if_neg (by decide)]
    rw [stripJsonOpeners, if_neg (by decide)]
    rw [stripJsonOpeners, if_neg (by decide)]
    simp [stripJsonOpeners]
  | cons c x' ih =>
    intro h
    rw [List.cons_append, stripJsonOpeners, fenceOpen_no_match (h c (by simp))]
    simp only [Bool.false_eq_true, if_false]
    rw [ih (fun a ha => h a (by simp [ha]))]

/-- The trailing-fence substitution cuts exactly the final triple backtick
after backtick-free text. -/
theorem stripTrailingFence_append_bt3 :
    ∀ {x : List Char}, (∀ c ∈ x, ¬c = bt) →
      stripTrailingFence (x ++ [bt, bt, bt]) = x := by
  intro x
  induction x with
  | nil =>
    intro _
    rw [List.nil_append, stripTrailingFence, if_pos (by decide)]
  | cons c x' ih =>
    intro h
    rw [List.cons_append, stripTrailingFence]
    have hc : (c = bt && (x' ++ [bt, bt, bt]).take 2 = [bt, bt] &&
        ((x' ++ [bt, bt, bt]).drop 2).all isPySpace) = false := by
      have : ¬c = bt := h c (by simp)
      simp [this]
    rw [hc]
    simp only [Bool.false_eq_true, if_false]
    rw [ih (fun a ha => h a (by simp [ha]))]

/-- Unfolding the opener substitution at a match: the matched opener and its
trailing whitespace are deleted and scanning resumes. -/
theorem stripJsonOpeners_fence_head (rest : List Char) :
    stripJsonOpeners (fenceOpen ++ rest) =
      stripJsonOpeners (rest.dropWhile isPySpace) := by
  show stripJsonOpeners (bt :: ([bt, bt, 'j', 's', 'o', 'n'] ++ rest)) = _
  rw [stripJsonOpeners]
  have hp : fenceOpen.isPrefixOf (bt :: ([bt, bt, 'j', 's', 'o', 'n'] ++ rest)) = true := by
    have : fenceOpen <+: fenceOpen ++ rest := List.prefix_append fenceOpen rest
    have h2 := List.isPrefixOf_iff_prefix.mpr this
    exact h2
  rw [hp]
  simp only [if_true]
  have hd : ([bt, bt, 'j', 's', 'o', 'n'] ++ rest).drop 6 = rest := by
    rw [show (6 : Nat) = ([bt, bt, 'j', 's', 'o', 'n'] : List Char).length from rfl,
      List.drop_left]
  rw [hd]

end Fitness

namespace Fitness

/-- Appending trailing whitespace commutes with one lookahead attempt: the
whitespace can only be absorbed into a trailing `\s*` that then fails to
find its closing character, exactly as without it. -/
theorem trySubst_append_spaces {close : Char} {spl : List Char}
    (hsp : ∀ c ∈ spl, isPySpace c = true) (r : List Char) :
    trySubst close (r ++ spl) = (trySubst close r).map (fun p => (p.1, p.2 ++ spl)) := by
  unfold trySubst
  have hsp_drop : spl.dropWhile isPySpace = [] := by
    rw [List.dropWhile_eq_nil_iff]
    exact hsp
  have hsp_take_id : spl.takeWhile isIdentChar = [] := by
    cases hspl : spl with
    | nil => rfl
    | cons c t =>
      apply List.takeWhile_cons_of_neg
      simp [space_not_ident (hsp c (by simp [hspl]))]
  have hsp_drop_id : spl.dropWhile isIdentChar = spl := by
    apply dropWhile_eq_self_of_head
    intro c hc
    cases hspl : spl with
    | nil => rw [hspl] at hc; cases hc
    | cons d t =>
      rw [hspl] at hc
      simp only [List.head?_cons] at hc
      cases hc
      exact space_not_ident (hsp c (by simp [hspl]))
  cases hD1 : r.dropWhile isPySpace with
  | nil =>
    have hcomb : (r ++ spl).dropWhile isPySpace = [] := by
      rw [List.dropWhile_append, hD1]
      simp [hsp_drop]
    rw [hcomb]
    simp
  | cons d D1' =>
    have hcomb : (r ++ spl).dropWhile isPySpace = (d :: D1') ++ spl := by
      rw [List.dropWhile_append, hD1]
      simp
    rw [hcomb]
    cases hR2 : (d :: D1').dropWhile isIdentChar with
    | nil =>
      have hallid : ∀ c ∈ d :: D1', isIdentChar c = true := by
        rw [← List.dropWhile_eq_nil_iff]
        exact hR2
      have htake_comb : ((d :: D1') ++ spl).takeWhile isIdentChar = d :: D1' := by
        rw [List.takeWhile_append_of_pos hallid, hsp_take_id, List.append_nil]
      have htake_plain : (d :: D1').takeWhile isIdentChar = d :: D1' :=
        List.takeWhile_eq_self_iff.mpr (fun x hx => by simp [hallid x hx])
      have hdrop_comb : ((d :: D1') ++ spl).dropWhile isIdentChar = spl := by
        rw [List.dropWhile_append, hR2]
        simp [hsp_drop_id]
      simp only [htake_comb, htake_plain, hdrop_comb, hR2, hsp_drop, List.head?_cons,
        List.dropWhile_nil]
      by_cases hst : isIdentStart d
      · simp [hst]
      · simp [hst]
    | cons e R2' =>
      have hne : ¬(d :: D1').takeWhile isIdentChar = d :: D1' := by
        intro habs
        have hnil : (d :: D1').dropWhile isIdentChar = [] := by
          have hsum := List.takeWhile_append_dropWhile isIdentChar (d :: D1')
          rw [habs] at hsum
          have hlen := congrArg List.length hsum
          simp only [List.length_append] at hlen
          have hzero : ((d :: D1').dropWhile isIdentChar).length = 0 := by omega
          exact List.length_eq_zero.mp hzero
        rw [hR2] at hnil
        cases hnil
      have htake_comb : ((d :: D1') ++ spl).takeWhile isIdentChar =
          (d :: D1').takeWhile isIdentChar := by
        rw [List.takeWhile_append]
        split
        · rename_i hlen
          have habs : (d :: D1').takeWhile isIdentChar = d :: D1' :=
            ( List.takeWhile_prefix _).eq_of_length hlen
          exact absurd habs hne
        · rfl
      have hdrop_comb : ((d :: D1') ++ spl).dropWhile isIdentChar = (e :: R2') ++ spl := by
        rw [List.dropWhile_append, hR2]
        simp
      cases hD3 : (e :: R2').dropWhile isPySpace with
      | nil =>
        have hcomb3 : ((e :: R2') ++ spl).dropWhile isPySpace = [] := by
          rw [List.dropWhile_append, hD3]
          simp [hsp_drop]
        simp only [htake_comb, hdrop_comb, hR2, hcomb3, hD3]
        cases ((d :: D1').takeWhile isIdentChar).head? with
        | none => simp
        | some w0 =>
          by_cases hst : isIdentStart w0
          · simp [hst]
          · simp [hst]
      | cons c2 r4 =>
        have hcomb3 : ((e :: R2') ++ spl).dropWhile isPySpace = c2 :: (r4 ++ spl) := by
          rw [List.dropWhile_append, hD3]
          simp
        simp only [htake_comb, hdrop_comb, hR2, hcomb3, hD3]
        cases ((d :: D1').takeWhile isIdentChar).head? with
        | none => simp
        | some w0 =>
          by_cases hst : isIdentStart w0
          · by_cases hc2 : c2 = close
            · simp [hst, hc2]
            · simp [hst, hc2]
          · simp [hst]

end Fitness

namespace Fitness

/-- Trailing whitespace passes through a whole repair pass unchanged. -/
theorem fixBare_append_spaces {close : Char} {spl : List Char}
    (hsp : ∀ c ∈ spl, isPySpace c = true) :
    ∀ a : List Char, fixBare close (a ++ spl) = fixBare close a ++ spl := by
  suffices h : ∀ (n : Nat) (a : List Char), a.length ≤ n →
      fixBare close (a ++ spl) = fixBare close a ++ spl from
    fun a => h a.length a le_rfl
  intro n
  induction n using Nat.strong_induction_on with
  | _ n ih =>
    intro a hn
    match a with
    | [] =>
      simp only [List.nil_append, fixBare]
      exact fixBare_eq_self_of_no_colon (fun c hc => space_ne_colon (hsp c hc))
    | c :: a' =>
      have ha' : a'.length < n := by
        simp only [List.length_cons] at hn
        omega
      rw [List.cons_append]
      by_cases hcc : c = ':'
      · subst hcc
        have hstep := @trySubst_append_spaces close spl hsp a'
        cases hts : trySubst close a' with
        | none =>
          rw [hts, Option.map_none'] at hstep
          rw [fixBare_colon_none hstep, fixBare_colon_none hts, ih a'.length ha' a' le_rfl]
          rfl
        | some p =>
          match p with
          | (w, rem) =>
            rw [hts, Option.map_some'] at hstep
            rw [fixBare_colon_some hstep, fixBare_colon_some hts]
            have hrem : rem.length < n := by
              have := trySubst_some_length hts
              omega
            rw [ih rem.length hrem rem le_rfl]
            simp
      · rw [fixBare_cons_ne hcc, fixBare_cons_ne hcc, ih a'.length ha' a' le_rfl]
        rfl

/-- Trailing whitespace does not move the greedy brace span. -/
theorem findSpan_append_spaces {spl : List Char}
    (hsp : ∀ c ∈ spl, isPySpace c = true) (x : List Char) :
    findSpan (x ++ spl) = findSpan x := by
  unfold findSpan
  have hnb : ∀ c ∈ spl, (!(c = lbrace : Bool)) = true := by
    intro c hc
    simp [space_ne_lbrace (hsp c hc)]
  have hnr : ∀ c ∈ spl.reverse, (!(c = rbrace : Bool)) = true := by
    intro c hc
    simp [space_ne_rbrace (hsp c (List.mem_reverse.mp hc))]
  cases hdx : x.dropWhile (fun c => !(c = lbrace)) with
  | nil =>
    have hcomb : (x ++ spl).dropWhile (fun c => !(c = lbrace)) = [] := by
      rw [List.dropWhile_append, hdx]
      simp only [List.isEmpty_nil, if_true]
      rw [List.dropWhile_eq_nil_iff]
      exact fun c hc => hnb c hc
    rw [hcomb]
  | cons d ds =>
    have hcomb : (x ++ spl).dropWhile (fun c => !(c = lbrace)) = (d :: ds) ++ spl := by
      rw [List.dropWhile_append, hdx]
      simp
    rw [hcomb]
    have hrev : ((d :: ds) ++ spl).reverse.dropWhile (fun c => !(c = rbrace)) =
        (d :: ds).reverse.dropWhile (fun c => !(c = rbrace)) := by
      rw [List.reverse_append, List.dropWhile_append_of_pos hnr]
    simp only [hrev]

end Fitness

namespace Fitness


theorem fenceCleaned_eq (l : List Char) :
    fenceCleaned l = stripTrailingFence (stripJsonOpeners (pyStripL l)) := by
  unfold fenceCleaned
  rw [stripJsonOpenersE_eq _ _ le_rfl]

theorem normalizeText_via_clean (l : List Char) :
    normalizeText l = fixBare rbrace (fixBare ',' (fenceCleaned l)) := by
  rw [normalizeText_eq, fenceCleaned_eq]

/-- C5 counterexample: a reply whose leading fence opener is untagged.  The
cleaning step removes the trailing closer but leaves the leading ```` ``` ````
in place - the first three characters of the cleaned text are still
backticks. -/
theorem c5_counterexample_untagged_opener :
    fenceCleaned ([bt, bt, bt] ++ "\n\x7b\"a\": 1\x7d\n".data ++ [bt, bt, bt]) =
      [bt, bt, bt] ++ "\n\x7b\"a\": 1\x7d\n".data ∧
    (fenceCleaned ([bt, bt, bt] ++ "\n\x7b\"a\": 1\x7d\n".data ++ [bt, bt, bt])).take 3 =
      [bt, bt, bt] :=
  ⟨rfl, rfl⟩

/-- C5 (amended): the cleaning step removes a `json`-tagged fence opener
together with the whitespace following it, and removes a trailing fence
closer; an untagged leading opener is not removed (see the
counterexample). -/
theorem c5_tagged_opener_and_closer_removed (w1 mid : List Char)
    (hw1 : ∀ c ∈ w1, isPySpace c = true)
    (hmid_bt : ∀ c ∈ mid, ¬c = bt)
    (hmid_h : ∀ c, mid.head? = some c → isPySpace c = false) :
    fenceCleaned (fenceOpen ++ w1 ++ mid ++ [bt, bt, bt]) = mid := by
  rw [fenceCleaned_eq]
  have hshape : fenceOpen ++ w1 ++ mid ++ [bt, bt, bt] =
      fenceOpen ++ (w1 ++ (mid ++ [bt, bt, bt])) := by
    simp [List.append_assoc]
  have hhead : (fenceOpen ++ w1 ++ mid ++ [bt, bt, bt]).head? = some bt := by
    rw [hshape]
    rfl
  have hstrip : pyStripL (fenceOpen ++ w1 ++ mid ++ [bt, bt, bt]) =
      fenceOpen ++ w1 ++ mid ++ [bt, bt, bt] := by
    apply pyStripL_eq_self
    · intro c hc
      rw [hhead] at hc
      cases hc
      decide
    · intro c hc
      rw [getLast?_append_cons] at hc
      simp only [List.getLast?_cons_cons, List.getLast?_singleton] at hc
      cases hc
      decide
  rw [hstrip, hshape, stripJsonOpeners_fence_head]
  have hdw : (w1 ++ (mid ++ [bt, bt, bt])).dropWhile isPySpace = mid ++ [bt, bt, bt] := by
    rw [List.dropWhile_append_of_pos hw1]
    apply dropWhile_eq_self_of_head
    intro c hc
    cases hm : mid with
    | nil =>
      rw [hm] at hc
      simp only [List.nil_append, List.head?_cons] at hc
      cases hc
      decide
    | cons m ms =>
      rw [hm] at hc
      simp only [List.cons_append, List.head?_cons] at hc
      cases hc
      exact hmid_h c (by rw [hm]; rfl)
  rw [hdw, stripJsonOpeners_append_bt3 hmid_bt, stripTrailingFence_append_bt3 hmid_bt]

/-- Witness for C5's amended statement on a typical tagged reply. -/
theorem c5_tagged_opener_and_closer_removed_witness :
    fenceCleaned (fenceOpen ++ ['\n'] ++ "\x7b\"a\": 1\x7d\n".data ++ [bt, bt, bt]) =
      "\x7b\"a\": 1\x7d\n".data :=
  c5_tagged_opener_and_closer_removed ['\n'] "\x7b\"a\": 1\x7d\n".data
    (by decide) (by decide) (by intro c hc; cases hc; decide)

end Fitness

namespace Fitness

/-- A successful parse through the pipeline yields a success from
`processContent`. -/
theorem processContent_ok {s : String} {v : JVal}
    (h : parsedAnalysis s.data = some v) : processContent s = Except.ok v := by
  unfold processContent
  unfold parsedAnalysis at h
  cases hfs : findSpan (normalizeText s.data) with
  | none => rw [hfs] at h; cases h
  | some span =>
    rw [hfs] at h
    have h2 : jsonLoads span = some v := h
    simp [hfs, h2]

/-- C4 counterexample: a fenced ```` ```json ```` block around the valid
JSON object `{"a": "b: c,"}`.  The bare-word repair corrupts the string
value, parsing fails on both attempts, and the handler replies 500 instead
of success. -/
theorem c4_counterexample_valid_json_corrupted :
    jsonLoads "\x7b\"a\": \"b: c,\"\x7d".data =
      some (.jobj [("a".data, .jstr "b: c,".data)]) ∧
    callUpstream (fun _ =>
        Outcome.ok ⟨fenceOpen ++ "\n\x7b\"a\": \"b: c,\"\x7d\n".data ++ [bt, bt, bt]⟩) =
      (⟨500, .failure "Failed to parse AI response as JSON"
        (some ⟨fenceOpen ++ "\n\x7b\"a\": \"b: c,\"\x7d\n".data ++ [bt, bt, bt]⟩)⟩, 2) :=
  ⟨rfl, rfl⟩

/-- C4 (amended): for a reply consisting of a ```` ```json ```` fenced block
around an object text, the fence markers have no effect - the pipeline's
parse result on the fenced reply equals its result on the enclosed object
text alone - and whenever the (repaired) object text parses, the handler
returns success with that parse on the first attempt. -/
theorem c4_fenced_block_ignored (obj w1 w2 : List Char) (v : JVal)
    (hobj_bt : ∀ c ∈ obj, ¬c = bt)
    (hhead : obj.head? = some lbrace)
    (hlast : obj.getLast? = some rbrace)
    (hw1 : ∀ c ∈ w1, isPySpace c = true)
    (hw2 : ∀ c ∈ w2, isPySpace c = true)
    (hparse : parsedAnalysis obj = some v) :
    parsedAnalysis (fenceOpen ++ w1 ++ obj ++ w2 ++ [bt, bt, bt]) = parsedAnalysis obj ∧
    callUpstream (fun _ => Outcome.ok ⟨fenceOpen ++ w1 ++ obj ++ w2 ++ [bt, bt, bt]⟩) =
      (⟨200, .success v⟩, 1) := by
  have hw2_bt : ∀ c ∈ w2, ¬c = bt := fun c hc => space_ne_bt (hw2 c hc)
  have hobjw2_bt : ∀ c ∈ obj ++ w2, ¬c = bt := by
    intro c hc
    rcases List.mem_append.mp hc with hc | hc
    · exact hobj_bt c hc
    · exact hw2_bt c hc
  obtain ⟨obj', hobj'⟩ : ∃ t, obj = lbrace :: t := by
    cases ho : obj with
    | nil => rw [ho] at hhead; cases hhead
    | cons a t =>
      rw [ho] at hhead
      simp only [List.head?_cons] at hhead
      cases hhead
      exact ⟨t, rfl⟩
  have hclean : fenceCleaned (fenceOpen ++ w1 ++ obj ++ w2 ++ [bt, bt, bt]) = obj ++ w2 := by
    rw [fenceCleaned_eq]
    have hshape : fenceOpen ++ w1 ++ obj ++ w2 ++ [bt, bt, bt] =
        fenceOpen ++ (w1 ++ (obj ++ w2 ++ [bt, bt, bt])) := by
      simp [List.append_assoc]
    have hstrip : pyStripL (fenceOpen ++ w1 ++ obj ++ w2 ++ [bt, bt, bt]) =
        fenceOpen ++ w1 ++ obj ++ w2 ++ [bt, bt, bt] := by
      apply pyStripL_eq_self
      · intro c hc
        rw [hshape] at hc
        cases hc
        decide
      · intro c hc
        rw [getLast?_append_cons] at hc
        simp only [List.getLast?_cons_cons, List.getLast?_singleton] at hc
        cases hc
        decide
    rw [hstrip, hshape, stripJsonOpeners_fence_head]
    have hdw : (w1 ++ (obj ++ w2 ++ [bt, bt, bt])).dropWhile isPySpace =
        obj ++ w2 ++ [bt, bt, bt] := by
      rw [List.dropWhile_append_of_pos hw1]
      apply dropWhile_eq_self_of_head
      intro c hc
      rw [hobj'] at hc
      simp only [List.cons_append, List.head?_cons] at hc
      cases hc
      decide
    rw [hdw]
    have hassoc : obj ++ w2 ++ [bt, bt, bt] = (obj ++ w2) ++ [bt, bt, bt] := rfl
    rw [hassoc, stripJsonOpeners_append_bt3 hobjw2_bt, stripTrailingFence_append_bt3 hobjw2_bt]
  have hclean_obj : fenceCleaned obj = obj := by
    rw [fenceCleaned_eq]
    have hstrip : pyStripL obj = obj := by
      apply pyStripL_eq_self
      · intro c hc
        rw [hhead] at hc
        cases hc
        decide
      · intro c hc
        rw [hlast] at hc
        cases hc
        decide
    rw [hstrip, stripJsonOpeners_no_bt hobj_bt, stripTrailingFence_no_bt hobj_bt]
  have hnorm : normalizeText (fenceOpen ++ w1 ++ obj ++ w2 ++ [bt, bt, bt]) =
      normalizeText obj ++ w2 := by
    rw [normalizeText_via_clean, normalizeText_via_clean, hclean, hclean_obj,
      fixBare_append_spaces hw2, fixBare_append_spaces hw2]
  have hpa : parsedAnalysis (fenceOpen ++ w1 ++ obj ++ w2 ++ [bt, bt, bt]) =
      parsedAnalysis obj := by
    unfold parsedAnalysis
    rw [hnorm, findSpan_append_spaces hw2]
  refine ⟨hpa, ?_⟩
  have hfenced_parse : parsedAnalysis (fenceOpen ++ w1 ++ obj ++ w2 ++ [bt, bt, bt]) =
      some v := by
    rw [hpa, hparse]
  have hne : ¬(⟨fenceOpen ++ w1 ++ obj ++ w2 ++ [bt, bt, bt]⟩ : String) = "" := by
    intro habs
    have hdata := congrArg String.data habs
    simp [fenceOpen] at hdata
  have hatt : processAttempt (Outcome.ok ⟨fenceOpen ++ w1 ++ obj ++ w2 ++ [bt, bt, bt]⟩) =
      Except.ok v := by
    show (if (⟨fenceOpen ++ w1 ++ obj ++ w2 ++ [bt, bt, bt]⟩ : String) = "" then
        Except.error ⟨"OpenAI returned empty response", 500, none⟩
      else processContent ⟨fenceOpen ++ w1 ++ obj ++ w2 ++ [bt, bt, bt]⟩) = Except.ok v
    rw [if_neg hne]
    exact processContent_ok hfenced_parse
  show retryGo _ 0 (1 + 1) none = _
  rw [retryGo, hatt]

end Fitness

namespace Fitness

/-- Witness for C4's amended statement on a typical fenced reply. -/
theorem c4_fenced_block_ignored_witness :
    parsedAnalysis (fenceOpen ++ ['\n'] ++ "\x7b\"x\": 1\x7d".data ++ ['\n'] ++ [bt, bt, bt]) =
      parsedAnalysis "\x7b\"x\": 1\x7d".data ∧
    callUpstream (fun _ =>
        Outcome.ok ⟨fenceOpen ++ ['\n'] ++ "\x7b\"x\": 1\x7d".data ++ ['\n'] ++ [bt, bt, bt]⟩) =
      (⟨200, .success (.jobj [("x".data, .jnum "1".data)])⟩, 1) :=
  c4_fenced_block_ignored "\x7b\"x\": 1\x7d".data ['\n'] ['\n']
    (.jobj [("x".data, .jnum "1".data)])
    (by decide) rfl rfl (by decide) (by decide) rfl

set_option maxRecDepth 40000 in
/-- C10: the JSON template appended to the prompt is selected by image
presence: the image template contains the literal `"has_body_composition":
true` and a `"body_composition"` object, the no-image template contains
`"has_body_composition": false` and no `"body_composition"` object. -/
theorem c10_template_matches_image_presence (hasImage : Bool) :
    occurs "\"has_body_composition\": true".data (jsonStructure hasImage).data = hasImage ∧
    occurs "\"has_body_composition\": false".data (jsonStructure hasImage).data = !hasImage ∧
    occurs "\"body_composition\": \x7b".data (jsonStructure hasImage).data = hasImage ∧
    ∀ form : Option FormData,
      messageText hasImage form = promptText hasImage form ++ jsonStructure hasImage := by
  cases hasImage with
  | false => exact ⟨by decide, by decide, by decide, fun _ => rfl⟩
  | true => exact ⟨by decide, by decide, by decide, fun _ => rfl⟩

end Fitness

namespace Fitness

/-- `occurs` decides list containment. -/
theorem occurs_iff {p : List Char} : ∀ {l : List Char}, occurs p l = true ↔ p <:+: l := by
  intro l
  induction l with
  | nil =>
    rw [occurs]
    constructor
    · intro h
      have hp : p = [] := by simpa using h
      subst hp
      exact List.infix_rfl
    · intro h
      have hp := List.infix_nil.mp h
      subst hp
      simp
  | cons c rest ih =>
    rw [occurs, Bool.or_eq_true, List.infix_cons_iff]
    constructor
    · rintro (h | h)
      · exact Or.inl (List.isPrefixOf_iff_prefix.mp h)
      · exact Or.inr (ih.mp h)
    · rintro (h | h)
      · exact Or.inl (List.isPrefixOf_iff_prefix.mpr h)
      · exact Or.inr (ih.mpr h)

/-- An infix of an append lies in the left part, in the right part, or spans
the boundary with a nonempty suffix/prefix pair. -/
theorem infix_append_cases {S X Y : List Char} (h : S <:+: X ++ Y) :
    S <:+: X ∨ S <:+: Y ∨
      ∃ s₁ s₂, S = s₁ ++ s₂ ∧ ¬s₁ = [] ∧ ¬s₂ = [] ∧ s₁ <:+ X ∧ s₂ <+: Y := by
  obtain ⟨a, b, hab⟩ := h
  have hlen := congrArg List.length hab
  simp only [List.length_append] at hlen
  by_cases h1 : a.length + S.length ≤ X.length
  · left
    have hX : X = a ++ S ++ b.take (X.length - (a.length + S.length)) := by
      have htake := congrArg (List.take X.length) hab
      rw [List.take_left] at htake
      rw [← htake]
      rw [List.take_append_eq_append_take, List.take_append_eq_append_take]
      rw [List.take_of_length_le (by omega), List.take_of_length_le (by omega)]
      simp [List.append_assoc]
      omega
    exact ⟨a, b.take (X.length - (a.length + S.length)), hX.symm⟩
  · by_cases h2 : X.length ≤ a.length
    · right; left
      have hY : Y = a.drop X.length ++ S ++ b := by
        have hdrop := congrArg (List.drop X.length) hab
        rw [List.drop_left] at hdrop
        rw [← hdrop]
        rw [List.append_assoc, List.drop_append_eq_append_drop]
        rw [show X.length - a.length = 0 from by omega]
        simp [List.append_assoc]
      exact ⟨a.drop X.length, b, hY.symm⟩
    · right; right
      refine ⟨S.take (X.length - a.length), S.drop (X.length - a.length),
        (List.take_append_drop _ S).symm, ?_, ?_, ?_, ?_⟩
      · intro habs
        have := congrArg List.length habs
        simp only [List.length_take, List.length_nil] at this
        omega
      · intro habs
        have := congrArg List.length habs
        simp only [List.length_drop, List.length_nil] at this
        omega
      · have hX : X = a ++ S.take (X.length - a.length) := by
          have htake := congrArg (List.take X.length) hab
          rw [List.take_left] at htake
          rw [← htake]
          rw [List.append_assoc, List.take_append_eq_append_take]
          rw [List.take_of_length_le (by omega), List.take_append_eq_append_take]
          rw [show X.length - a.length - S.length = 0 from by omega]
          simp
        exact ⟨a, hX.symm⟩
      · have hY : Y = S.drop (X.length - a.length) ++ b := by
          have hdrop := congrArg (List.drop X.length) hab
          rw [List.drop_left] at hdrop
          rw [← hdrop]
          rw [List.append_assoc, List.drop_append_eq_append_drop]
          rw [List.drop_eq_nil_of_le (by omega), List.drop_append_eq_append_drop]
          rw [show X.length - a.length - S.length = 0 from by omega]
          simp
        exact ⟨b, hY.symm⟩

end Fitness

namespace Fitness

/-- A newline-free string lies on one side of a boundary ending in a
newline. -/
theorem infix_append_split_last {S X Y : List Char}
    (hS : ∀ c ∈ S, ¬c = '\n') (hX : X.getLast? = some '\n') :
    S <:+: X ++ Y ↔ (S <:+: X ∨ S <:+: Y) := by
  constructor
  · intro h
    rcases infix_append_cases h with h | h | ⟨s₁, s₂, hS12, h1, _h2, hsuf, _hpre⟩
    · exact Or.inl h
    · exact Or.inr h
    · exfalso
      have hXne : ¬X = [] := by
        intro habs
        rw [habs] at hX
        cases hX
      have hlast := hsuf.getLast h1
      have hXlast : X.getLast hXne = '\n' := by
        rw [List.getLast?_eq_getLast X hXne] at hX
        injection hX
      have hmem : s₁.getLast h1 ∈ s₁ := List.getLast_mem h1
      have hmemS : s₁.getLast h1 ∈ S := by
        rw [hS12]
        exact List.mem_append_left _ hmem
      exact hS _ hmemS (by rw [hlast]; exact hXlast)
  · rintro (h | h)
    · exact h.trans ⟨[], Y, by simp⟩
    · exact h.trans ⟨X, [], by simp⟩

/-- A newline-free string lies on one side of a boundary whose right part
starts with a newline. -/
theorem infix_append_split_head {S X Y : List Char}
    (hS : ∀ c ∈ S, ¬c = '\n') (hY : Y.head? = some '\n') :
    S <:+: X ++ Y ↔ (S <:+: X ∨ S <:+: Y) := by
  constructor
  · intro h
    rcases infix_append_cases h with h | h | ⟨s₁, s₂, hS12, _h1, h2, _hsuf, hpre⟩
    · exact Or.inl h
    · exact Or.inr h
    · exfalso
      have hYne : ¬Y = [] := by
        intro habs
        rw [habs] at hY
        cases hY
      have hhead := hpre.head h2
      have hYhead : Y.head hYne = '\n' := by
        rw [List.head?_eq_head hYne] at hY
        injection hY
      have hmem : s₂.head h2 ∈ s₂ := List.head_mem h2
      have hmemS : s₂.head h2 ∈ S := by
        rw [hS12]
        exact List.mem_append_right _ hmem
      exact hS _ hmemS (by rw [hhead]; exact hYhead)
  · rintro (h | h)
    · exact h.trans ⟨[], Y, by simp⟩
    · exact h.trans ⟨X, [], by simp⟩

theorem not_infix_of_short {S X : List Char} (h : X.length < S.length) : ¬S <:+: X :=
  fun hinf => absurd hinf.length_le (by omega)

theorem not_infix_of_missing_char {S X : List Char} {c : Char}
    (hc : c ∈ S) (hnc : ¬c ∈ X) : ¬S <:+: X :=
  fun hinf => hnc (hinf.mem hc)

end Fitness

namespace Fitness

/-- The profile block always ends in a newline. -/
theorem profileBlock_last (fd : FormData) :
    (profileBlock fd).data.getLast? = some '\n' := by
  unfold profileBlock
  simp only [String.data_append]
  rw [getLast?_append_cons]
  rfl

theorem messageText_true_decomp (form : Option FormData) :
    (messageText true form).data =
      (basePrompt true).data ++ ((profileRendered form).data ++
        (closingLine.data ++ (provideLine.data ++ jsonStructureImage.data))) := by
  unfold messageText promptText jsonStructure
  simp [String.data_append, List.append_assoc]

theorem messageText_false_decomp (form : Option FormData) :
    (messageText false form).data =
      ((basePrompt false).data ++ (profileRendered form).data) ++ (noteSentence.data ++
        (('\n' :: '\n' :: []) ++ (closingLine.data ++
          (provideLine.data ++ jsonStructureNoImage.data)))) := by
  unfold messageText promptText jsonStructure
  simp [String.data_append, List.append_assoc]

end Fitness

namespace Fitness

set_option maxRecDepth 200000 in
/-- C9 (amended): without an image the built prompt always contains the
body-composition-exclusion sentence; with an image the prompt contains the
sentence exactly when the rendered profile section itself contains it (so it
is absent for every profile whose rendered fields do not reintroduce it, and
a field value equal to the sentence reintroduces it - see the
counterexample). -/
theorem c9_exclusion_sentence_iff (form : Option FormData) :
    occurs noteSentence.data (messageText false form).data = true ∧
    occurs noteSentence.data (messageText true form).data =
      occurs noteSentence.data (profileRendered form).data := by
  have hSnl : ∀ c ∈ noteSentence.data, ¬c = '\n' := by decide
  have hB1last : (basePrompt true).data.getLast? = some '\n' := by decide
  constructor
  · apply occurs_iff.mpr
    refine ⟨(basePrompt false).data ++ (profileRendered form).data,
      ('\n' :: '\n' :: []) ++ (closingLine.data ++
        (provideLine.data ++ jsonStructureNoImage.data)), ?_⟩
    rw [messageText_false_decomp]
    simp [List.append_assoc]
  · have hPR : ∀ h : noteSentence.data <:+: (messageText true form).data,
        noteSentence.data <:+: (profileRendered form).data := by
      intro h
      rw [messageText_true_decomp] at h
      rcases (infix_append_split_last hSnl hB1last).mp h with h | h
      · exact absurd h (not_infix_of_short (by decide))
      · have hPRlast : (profileRendered form).data = [] ∨
            (profileRendered form).data.getLast? = some '\n' := by
          cases form with
          | none => left; rfl
          | some fd => right; exact profileBlock_last fd
        rcases hPRlast with hemp | hlast
        · rw [hemp, List.nil_append] at h
          exfalso
          rcases (infix_append_split_head hSnl
              (show (provideLine.data ++ jsonStructureImage.data).head? = some '\n' from rfl)).mp
              h with h | h
          · exact absurd h (not_infix_of_short (by decide))
          rcases (infix_append_split_head hSnl
              (show jsonStructureImage.data.head? = some '\n' from rfl)).mp h with h | h
          · exact absurd h (not_infix_of_short (by decide))
          · exact absurd h (not_infix_of_missing_char (c := 'N') (by decide) (by decide))
        · rcases (infix_append_split_last hSnl hlast).mp h with h | h
          · exact h
          exfalso
          rcases (infix_append_split_head hSnl
              (show (provideLine.data ++ jsonStructureImage.data).head? = some '\n' from rfl)).mp
              h with h | h
          · exact absurd h (not_infix_of_short (by decide))
          rcases (infix_append_split_head hSnl
              (show jsonStructureImage.data.head? = some '\n' from rfl)).mp h with h | h
          · exact absurd h (not_infix_of_short (by decide))
          · exact absurd h (not_infix_of_missing_char (c := 'N') (by decide) (by decide))
    have hRP : ∀ h : noteSentence.data <:+: (profileRendered form).data,
        noteSentence.data <:+: (messageText true form).data := by
      intro h
      rw [messageText_true_decomp]
      apply (infix_append_split_last hSnl hB1last).mpr
      right
      exact h.trans ⟨[], closingLine.data ++ (provideLine.data ++ jsonStructureImage.data),
        by simp⟩
    cases hocc : occurs noteSentence.data (profileRendered form).data with
    | true => exact occurs_iff.mpr (hRP (occurs_iff.mp hocc))
    | false =>
      cases hocc2 : occurs noteSentence.data (messageText true form).data with
      | false => rfl
      | true =>
        exfalso
        have hcontra := occurs_iff.mpr (hPR (occurs_iff.mp hocc2))
        rw [hocc] at hcontra
        cases hcontra

end Fitness

namespace Fitness

set_option maxRecDepth 1000000 in
/-- C9 counterexample: with an image present, a profile whose `gender` field
value is the exclusion sentence itself produces a prompt that contains the
sentence, refuting the claimed "if and only if no image is present". -/
theorem c9_counterexample_field_reintroduces :
    occurs noteSentence.data
      (messageText true (some { gender := some noteSentence })).data = true := by
  decide

end Fitness
